import Mathlib

/-!
# lab: diff-context renderer and note reply engine

A shallow embedding of `cmd/show_common.go` (`maxPadding`, `printDiffLine`,
`displayDiff`, `displayCommitDiscussion`, `printDiscussions`) and of
`cmd/note_common.go` (`noteMsg`, `noteText`, `replyNote`).

Go strings are Lean strings; `len` is the byte length.  Go `int` values are
integers; the only arithmetic that can leave the 64-bit range is the
subtraction `target - 4` of the window filter, which wraps explicitly.  The
line counters only ever count lines of the input text, so they stay far below
`2 ^ 63`.

Calls that leave the program (the GitLab client, the editor, the file system,
git, the configuration store, the terminal) are recorded as events of a trace;
what they answer is supplied by a world value.
-/

namespace Lab

/-! ## Go library functions used by the code -/

/-- Go `len(s)` for a string: its length in bytes. -/
def len (s : String) : Int := s.utf8ByteSize

/-- Value of a run of decimal digits, most significant first. -/
def digitsValue (ds : List Char) : Nat :=
  ds.foldl (fun n ch => n * 10 + (ch.toNat - 48)) 0

/-- `strconv.Atoi` with the error result dropped, as in `x, _ := strconv.Atoi(s)`:
an optional sign followed by one or more decimal digits; a syntax error gives
`0`, a value outside the `int` range gives the nearest bound. -/
def atoi (s : String) : Int :=
  match s.data with
  | [] => 0
  | c :: cs =>
    let ds := if c = '+' ∨ c = '-' then cs else c :: cs
    if ds.isEmpty || !ds.all Char.isDigit then 0
    else
      let v := digitsValue ds
      if c = '-' then (if v > 2 ^ 63 then -(2 ^ 63) else -(v : Int))
      else (if v ≥ 2 ^ 63 then 2 ^ 63 - 1 else (v : Int))

/-- `strconv.Itoa`. -/
def itoa (n : Int) : String := toString n

/-- `strings.Split(s, sep)` for a one-byte separator. -/
def split (s : String) (sep : Char) : List String :=
  (s.data.splitOn sep).map String.mk

/-- `strings.Join(elems, sep)`. -/
def join : List String → String → String
  | [], _ => ""
  | [e], _ => e
  | e :: es, sep => es.foldl (fun b s => b ++ sep ++ s) e

/-- `strings.Replace(s, "\n", new, -1)`: every line feed replaced by `new`. -/
def replaceNewlines (s new : String) : String :=
  String.mk (s.data.flatMap fun c => if c = '\n' then new.data else [c])

/-- Two's-complement wrap of an integer into the range of a 64-bit `int`. -/
def wrap64 (x : Int) : Int := (x + 2 ^ 63) % 2 ^ 64 - 2 ^ 63

/-- Go `a - b` on `int`. -/
def sub64 (a b : Int) : Int := wrap64 (a - b)

/-- `bufio.MaxScanTokenSize`. -/
def maxScanTokenSize : Nat := 64 * 1024

/-- The text cut at every line feed; a final empty piece (text that is empty
or ends in a line feed) is not a line. -/
def rawLines (cs : List Char) : List (List Char) :=
  let segs := cs.splitOn '\n'
  if segs.getLast? = some [] then segs.dropLast else segs

/-- The `dropCR` helper of `bufio.ScanLines`. -/
def dropCR (l : List Char) : List Char :=
  if l.getLast? = some '\r' then l.dropLast else l

/-- The lines of a text as `bufio.ScanLines` cuts them: without the line feed
and without a carriage return before it. -/
def textLines (text : String) : List String :=
  (rawLines text.data).map fun l => String.mk (dropCR l)

/-- The tokens a `bufio.Scanner` with the default split function
(`bufio.ScanLines`) and the default buffer yields for a text: its lines, up to
the first line that does not fit the buffer (the scanner then stops with
`ErrTooLong`, which `displayDiff` does not look at). -/
def scanLines (text : String) : List String :=
  ((rawLines text.data).takeWhile
    fun l => decide ((String.mk l).utf8ByteSize < maxScanTokenSize)).map
    fun l => String.mk (dropCR l)

/-! ## `show_common.go`: the diff renderer -/

/-- `maxPadding` (show_common.go:23). -/
def maxPadding (xstr ystr : String) : Int :=
  let x := atoi xstr
  let y := atoi ystr
  if x > y then len xstr else len ystr

/-- Colour a diff line is printed in. -/
inductive Colour where
  | plain
  | green
  | red
  deriving DecidableEq, Repr

/-- One line written by `printDiffLine`: the colour and the arguments of the
format `%*s %*s %s\n`. -/
structure PrintedLine where
  colour : Colour
  maxChars : Int
  sOld : String
  sNew : String
  ltext : String
  deriving DecidableEq, Repr

/-- `printDiffLine` (show_common.go:34): the lines it writes. -/
def printDiffLine (strColor : String) (maxChars : Int) (sOld sNew ltext : String) :
    List PrintedLine :=
  if strColor = "" then [⟨.plain, maxChars, sOld, sNew, ltext⟩]
  else if strColor = "green" then [⟨.green, maxChars, sOld, sNew, ltext⟩]
  else if strColor = "red" then [⟨.red, maxChars, sOld, sNew, ltext⟩]
  else []

/-- Local variables of `displayDiff` together with what it has printed so far. -/
structure DiffState where
  diffChunkNum : Int
  oldLineNum : Int
  newLineNum : Int
  maxChars : Int
  printed : List PrintedLine
  deriving DecidableEq, Repr

/-- How one pass through the body of the scan loop ends. -/
inductive Flow where
  | next (st : DiffState)
  | stop (st : DiffState)
  | crash (st : DiffState)
  deriving DecidableEq, Repr

/-- State a pass through the loop body ends in. -/
def Flow.state : Flow → DiffState
  | .next st => st
  | .stop st => st
  | .crash st => st

/-- The regular expression `^@@` matched against a line. -/
def isHunkHeader (text : String) : Bool :=
  match text.data with
  | '@' :: '@' :: _ => true
  | _ => false

/-- What the `switch ltag` of `displayDiff` assigns. -/
structure Tagged where
  strColor : String
  oldLineNum : Int
  newLineNum : Int
  sOld : String
  sNew : String
  deriving DecidableEq, Repr

/-- The `switch ltag` of `displayDiff` (show_common.go:85-102).  `ltag` is the
first byte of the line turned into a string, which equals `" "`, `"-"` or `"+"`
exactly when the first character is that character. -/
def tagLine (ltag : Char) (oldLineNum newLineNum : Int) : Tagged :=
  if ltag = ' ' then
    ⟨"", oldLineNum + 1, newLineNum + 1, itoa (oldLineNum + 1), itoa (newLineNum + 1)⟩
  else if ltag = '-' then
    ⟨"red", oldLineNum + 1, newLineNum, itoa (oldLineNum + 1), " "⟩
  else if ltag = '+' then
    ⟨"green", oldLineNum, newLineNum + 1, " ", itoa (newLineNum + 1)⟩
  else
    ⟨"", oldLineNum, newLineNum, "", ""⟩

/-- The window test of `displayDiff` (show_common.go:108-114). -/
def inWindow (newLine oldLine newLineNum oldLineNum : Int) : Bool :=
  if newLine ≠ 0 then
    decide (newLineNum ≤ newLine ∧ newLineNum ≥ sub64 newLine 4)
  else
    decide (oldLineNum ≤ oldLine ∧ oldLineNum ≥ sub64 oldLine 4)

/-- Second half of the loop body of `displayDiff` (show_common.go:77-115).
Indexing an empty line (`ltext[0]`) is a run-time panic. -/
def displayDiffLine (noColorDiff : Bool) (chunkNum newLine oldLine : Int)
    (text : String) (st : DiffState) : Flow :=
  if st.diffChunkNum = chunkNum then
    match text.data with
    | [] => .crash st
    | ltag :: _ =>
      let t := tagLine ltag st.oldLineNum st.newLineNum
      let strColor := if noColorDiff then "" else t.strColor
      .next { st with
        oldLineNum := t.oldLineNum
        newLineNum := t.newLineNum
        printed := st.printed ++
          (if inWindow newLine oldLine t.newLineNum t.oldLineNum then
            printDiffLine strColor st.maxChars t.sOld t.sNew text
          else []) }
  else .next st

/-- One pass through the loop body of `displayDiff` (show_common.go:57-115).
Indexing `s[1]` or `s[2]` of a header with fewer than three fields is a
run-time panic. -/
def displayDiffStep (noColorDiff : Bool) (chunkNum newLine oldLine : Int)
    (text : String) (st : DiffState) : Flow :=
  if isHunkHeader text then
    let st1 := { st with diffChunkNum := st.diffChunkNum + 1 }
    let s := split text ' '
    match s.get? 1, s.get? 2 with
    | some s1, some s2 =>
      let dOld := split s1 ','
      let dNew := split s2 ','
      let st2 := { st1 with maxChars := maxPadding (dOld.getLastD "") (dNew.getLastD "") + 1 }
      if st2.diffChunkNum = chunkNum then .next st2
      else if st2.diffChunkNum > chunkNum then .stop st2
      else displayDiffLine noColorDiff chunkNum newLine oldLine text st2
    | _, _ => .crash st1
  else displayDiffLine noColorDiff chunkNum newLine oldLine text st

/-- What a run of `displayDiff` leaves behind: the lines printed and whether it
ended in a run-time panic. -/
structure DiffResult where
  printed : List PrintedLine
  panicked : Bool
  deriving DecidableEq, Repr

/-- The scan loop of `displayDiff` over the remaining lines. -/
def displayDiffLoop (noColorDiff : Bool) (chunkNum newLine oldLine : Int) :
    List String → DiffState → DiffResult
  | [], st => ⟨st.printed, false⟩
  | text :: rest, st =>
    match displayDiffStep noColorDiff chunkNum newLine oldLine text st with
    | .next st' => displayDiffLoop noColorDiff chunkNum newLine oldLine rest st'
    | .stop st' => ⟨st'.printed, false⟩
    | .crash st' => ⟨st'.printed, true⟩

/-- Values of the local variables of `displayDiff` on entry (show_common.go:48-53). -/
def DiffState.init : DiffState := ⟨-1, 0, 0, 0, []⟩

/-- `displayDiff` (show_common.go:47).  `noColorDiff` is the package variable
`mrShowNoColorDiff`. -/
def displayDiff (noColorDiff : Bool) (diff : String) (chunkNum newLine oldLine : Int) :
    DiffResult :=
  displayDiffLoop noColorDiff chunkNum newLine oldLine (scanLines diff) DiffState.init

/-! ### Reading of the claims about the diff renderer -/

/-- Whether a line is non-empty and, when it is a hunk header, has the three
blank-separated fields `displayDiff` indexes. -/
def wellFormedLine (l : String) : Bool :=
  !l.data.isEmpty && (!isHunkHeader l || decide (3 ≤ (split l ' ').length))

/-- Whether `displayDiff` gets through a text: every line fits the scanner's
buffer, no line is empty, and every line starting with `@@` carries both range
fields.  A unified diff need not pass: git prints an empty context line as an
empty line under `diff.suppressBlankEmpty`, and a line of a file may be longer
than the buffer. -/
def scansCleanly (diff : String) : Bool :=
  ((rawLines diff.data).all fun l => decide ((String.mk l).utf8ByteSize < maxScanTokenSize))
    && (textLines diff).all wellFormedLine

/-- Content lines of hunk `k` (counting from 0): the lines between the header
of hunk `k` and the next header or the end of the text. -/
def hunkBody (lines : List String) (k : Nat) : List String :=
  ((lines.splitOnP isHunkHeader).get? (k + 1)).getD []

/-- Whether a content line counts on the new side: a context or an added line. -/
def advancesNew (l : String) : Bool :=
  match l.data with
  | c :: _ => c = ' ' || c = '+'
  | [] => false

/-- Whether a content line counts on the old side: a context or a removed line. -/
def advancesOld (l : String) : Bool :=
  match l.data with
  | c :: _ => c = ' ' || c = '-'
  | [] => false

/-- Computed new-line-number of the `i`-th content line of a hunk: the value of
the running new-side counter once that line has been processed, that is the
number of context and added lines among the first `i + 1` lines. -/
def newLineNumberAt (seg : List String) (i : Nat) : Int :=
  (((seg.take (i + 1)).filter advancesNew).length : Nat)

/-- Lines of a hunk whose computed new-line-number lies in `[L - 4, L]`, in
their original order. -/
def newSideWindow (seg : List String) (L : Int) : List String :=
  (List.range seg.length).filterMap fun i =>
    if L - 4 ≤ newLineNumberAt seg i ∧ newLineNumberAt seg i ≤ L then seg.get? i else none

/-- Whether a printed line advanced the counter the window filter looks at:
the new-side counter when a new-side target was given, else the old-side one. -/
def advancesReference (newLine : Int) (p : PrintedLine) : Bool :=
  if newLine ≠ 0 then advancesNew p.ltext else advancesOld p.ltext

/-- Decimal digits of a natural number, most significant first. -/
def decimal (n : Nat) : List Char :=
  if n < 10 then [Nat.digitChar n] else decimal (n / 10) ++ [Nat.digitChar (n % 10)]
termination_by n
decreasing_by omega

/-- Number of decimal digits of a natural number. -/
def digits (n : Nat) : Int := ((Nat.repr n).length : Nat)

/-- Hunk header `@@ -a,b +c,d @@` followed by an optional section heading. -/
def hunkHeader (a b c d : Nat) (heading : String) : String :=
  "@@ -" ++ Nat.repr a ++ "," ++ Nat.repr b ++ " +" ++ Nat.repr c ++ "," ++ Nat.repr d
    ++ " @@" ++ heading

/-- Column width the specification gives for the header `@@ -a,b +c,d @@`:
one more than the digits of the last line number on either side. -/
def specMaxChars (a b c d : Nat) : Int :=
  max (digits (a + b - 1)) (digits (c + d - 1)) + 1

/-! ## `note_common.go`: composing and replying to notes -/

/-- Diff position of a note (`gitlab.NotePosition`), the fields the code reads. -/
structure NotePosition where
  BaseSHA : String
  HeadSHA : String
  OldPath : String
  NewPath : String
  NewLine : Int
  OldLine : Int
  deriving DecidableEq, Repr

/-- A note (`gitlab.Note`), the fields the code reads.  Times are instants
counted from the zero time of Go `time.Time`. -/
structure Note where
  ID : Int
  Body : String
  System : Bool
  AuthorUsername : String
  CreatedAt : Int
  UpdatedAt : Int
  Position : Option NotePosition
  deriving DecidableEq, Repr

/-- A discussion (`gitlab.Discussion`), the fields the code reads. -/
structure Discussion where
  ID : String
  IndividualNote : Bool
  Notes : List Note
  deriving DecidableEq, Repr

/-- Calls `replyNote` and `noteMsg` make outside the program, in the order
they are made. -/
inductive Event where
  | mrListDiscussions (rn : String) (idNum : Int)
  | issueListDiscussions (rn : String) (idNum : Int)
  | readFile (filename : String)
  | editFile (name text : String)
  | addMRDiscussionNote (rn : String) (idNum : Int) (discussion : String) (body : String)
  | addIssueDiscussionNote (rn : String) (idNum : Int) (discussion : String) (body : String)
  | updateMRDiscussionNote (rn : String) (idNum : Int) (discussion : String) (note : Int)
      (body : String)
  | updateIssueDiscussionNote (rn : String) (idNum : Int) (discussion : String) (note : Int)
      (body : String)
  | resolveMRDiscussion (rn : String) (idNum : Int) (discussion : String) (note : Int)
  | println (s : String)
  | fatal (msg : String)
  deriving DecidableEq, Repr

/-- Everything outside `note_common.go` that `replyNote` depends on.
`listDiscussions` is `lab.MRListDiscussions` or `lab.IssueListDiscussions`;
`respond` gives the answer to the call that ends the trace it is applied to
(`ioutil.ReadFile`, `git.EditFile`, the note calls of the GitLab client), a
string (file content, edited text, note URL) or an error; `commentChar` is
`git.CommentChar()`; `textToMarkdown` is the helper of that name, which lives in
another file of the package; `callerFile` is the file name `runtime.Caller`
reports. -/
structure World where
  listDiscussions : Bool → String → Int → Except String (List Discussion)
  respond : List Event → Except String String
  commentChar : String
  textToMarkdown : String → String
  callerFile : String

/-- `noteText` (note_common.go:107).  The template is a constant that parses
and executes on two string fields, so the error results are never taken. -/
def noteText (w : World) (body : String) : Except String String :=
  .ok (body ++ "\n" ++ w.commentChar
    ++ " Write a message for this note. Commented lines are discarded.")

/-- `noteMsg` (note_common.go:91), with the trace of calls made so far. -/
def noteMsg (w : World) (msgs : List String) (isMR : Bool) (body : String)
    (tr : List Event) : Except String String × List Event :=
  if msgs.length > 0 then (.ok (join msgs "\n\n"), tr)
  else
    match noteText w body with
    | .error e => (.error e, tr)
    | .ok text =>
      let tr' := tr ++ [.editFile (if isMR then "MR_NOTE" else "ISSUE_NOTE") text]
      (w.respond tr', tr')

/-- Seed text of the edit template in `replyNote` (note_common.go:180-187). -/
def replySeed (quote update : Bool) (note : Note) : String :=
  if quote then
    let noteBody := replaceNewlines note.Body "\n>"
    if !update then ">" ++ noteBody ++ "\n" else noteBody
  else ""

/-- Message of `log.Fatal(f+":"+strconv.Itoa(l)+" ", err)` for the caller line `l`. -/
def callerFatal (w : World) (l : Int) (err : String) : String :=
  w.callerFile ++ ":" ++ itoa l ++ " " ++ err

/-- Composition of the note body in `replyNote` (note_common.go:166-193): the
body, or the message of the `log.Fatal` that ends the program. -/
def composeBody (w : World) (isMR quote update : Bool) (filename : String)
    (msgs : List String) (note : Note) (tr : List Event) :
    Except String String × List Event :=
  if msgs.length ≠ 0 then
    match noteMsg w msgs isMR note.Body tr with
    | (.ok body, tr') => (.ok body, tr')
    | (.error e, tr') => (.error (callerFatal w 170 e), tr')
  else if filename ≠ "" then
    let tr' := tr ++ [.readFile filename]
    (w.respond tr', tr')
  else
    match noteMsg w [] isMR (replySeed quote update note) tr with
    | (.ok body, tr') => (.ok body, tr')
    | (.error e, tr') => (.error (callerFatal w 190 e), tr')

/-- Values of `NoteURL` and `err` after a client call, with the trace. -/
structure Submitted where
  NoteURL : String
  err : Option String
  trace : List Event

/-- A client call returning `(string, error)`: the URL, or the empty string
together with the error. -/
def call (w : World) (tr : List Event) (e : Event) : Submitted :=
  match w.respond (tr ++ [e]) with
  | .ok url => ⟨url, none, tr ++ [e]⟩
  | .error err => ⟨"", some err, tr ++ [e]⟩

/-- Submission of the composed body in `replyNote` (note_common.go:203-220). -/
def submit (w : World) (rn : String) (isMR : Bool) (idNum reply : Int)
    (update resolve : Bool) (discussion : Discussion) (note : Note) (body : String)
    (noteURL : String) (tr : List Event) : Submitted :=
  if update then
    if isMR then call w tr (.updateMRDiscussionNote rn idNum discussion.ID note.ID body)
    else call w tr (.updateIssueDiscussionNote rn idNum discussion.ID note.ID body)
  else if isMR then
    let added :=
      if body ≠ "" then call w tr (.addMRDiscussionNote rn idNum discussion.ID body)
      else ⟨noteURL, none, tr⟩
    if resolve then call w added.trace (.resolveMRDiscussion rn idNum discussion.ID reply)
    else added
  else call w tr (.addIssueDiscussionNote rn idNum discussion.ID body)

/-- Function-level state of `replyNote` between two notes: the calls made so
far, the variable `NoteURL`, and whether `log.Fatal` has ended the program. -/
structure ReplyState where
  trace : List Event
  NoteURL : String
  exited : Bool
  deriving DecidableEq, Repr

/-- Body of the inner loop of `replyNote` for one note (note_common.go:155-224). -/
def replyNoteOn (w : World) (rn : String) (isMR : Bool) (idNum reply : Int)
    (quote update : Bool) (filename : String) (linebreak resolve : Bool)
    (msgs : List String) (discussion : Discussion) (note : Note) (st : ReplyState) :
    ReplyState :=
  if st.exited then st
  else if note.System then
    if note.ID = reply then
      { st with trace := st.trace ++ [.println ("ERROR: Cannot reply to note " ++ itoa note.ID)] }
    else st
  else if note.ID ≠ reply then st
  else
    match composeBody w isMR quote update filename msgs note st.trace with
    | (.error msg, tr) => { st with trace := tr ++ [.fatal msg], exited := true }
    | (.ok body, tr) =>
      if body = "" ∧ !resolve then
        { st with trace := tr ++ [.fatal "aborting note due to empty note msg"], exited := true }
      else
        let body := if linebreak then w.textToMarkdown body else body
        let r := submit w rn isMR idNum reply update resolve discussion note body st.NoteURL tr
        match r.err with
        | some err => ⟨r.trace ++ [.fatal err], r.NoteURL, true⟩
        | none => ⟨r.trace ++ [.println r.NoteURL], r.NoteURL, false⟩

/-- Inner loop of `replyNote` over the notes of one discussion. -/
def replyNotes (w : World) (rn : String) (isMR : Bool) (idNum reply : Int)
    (quote update : Bool) (filename : String) (linebreak resolve : Bool)
    (msgs : List String) (discussion : Discussion) (notes : List Note) (st : ReplyState) :
    ReplyState :=
  notes.foldl (fun st note =>
    replyNoteOn w rn isMR idNum reply quote update filename linebreak resolve msgs
      discussion note st) st

/-- Outer loop of `replyNote` over the discussions. -/
def replyDiscussions (w : World) (rn : String) (isMR : Bool) (idNum reply : Int)
    (quote update : Bool) (filename : String) (linebreak resolve : Bool)
    (msgs : List String) (discussions : List Discussion) (st : ReplyState) : ReplyState :=
  discussions.foldl (fun st discussion =>
    replyNotes w rn isMR idNum reply quote update filename linebreak resolve msgs
      discussion discussion.Notes st) st

/-- The call that lists the discussions of an issue or merge request. -/
def listEvent (isMR : Bool) (rn : String) (idNum : Int) : Event :=
  if isMR then .mrListDiscussions rn idNum else .issueListDiscussions rn idNum

/-- `replyNote` (note_common.go:136). -/
def replyNote (w : World) (rn : String) (isMR : Bool) (idNum reply : Int)
    (quote update : Bool) (filename : String) (linebreak resolve : Bool)
    (msgs : List String) : ReplyState :=
  match w.listDiscussions isMR rn idNum with
  | .error err => ⟨[listEvent isMR rn idNum, .fatal err], "", true⟩
  | .ok discussions =>
    replyDiscussions w rn isMR idNum reply quote update filename linebreak resolve msgs
      discussions ⟨[listEvent isMR rn idNum], "", false⟩

/-! ### Reading of the claims about notes -/

/-- Whether a call creates a note. -/
def Event.isNoteCreation : Event → Bool
  | .addMRDiscussionNote .. => true
  | .addIssueDiscussionNote .. => true
  | _ => false

/-- Whether a call updates a note. -/
def Event.isNoteUpdate : Event → Bool
  | .updateMRDiscussionNote .. => true
  | .updateIssueDiscussionNote .. => true
  | _ => false

/-- Whether a call resolves a discussion. -/
def Event.isResolve : Event → Bool
  | .resolveMRDiscussion .. => true
  | _ => false

/-- Whether a call changes something on the remote service. -/
def Event.isMutation (e : Event) : Bool :=
  e.isNoteCreation || e.isNoteUpdate || e.isResolve

/-- Whether a call opens the editor. -/
def Event.isEditor : Event → Bool
  | .editFile .. => true
  | _ => false

/-- Mutation calls of a trace, in order. -/
def mutationCalls (tr : List Event) : List Event := tr.filter Event.isMutation

/-- Notes of all discussions, in the order `replyNote` visits them. -/
def allNotes (discussions : List Discussion) : List Note :=
  discussions.flatMap fun d => d.Notes

/-- Messages separated by exactly one blank line, each used verbatim. -/
def blankLineSeparated : List String → String
  | [] => ""
  | [m] => m
  | m :: rest => m ++ "\n\n" ++ blankLineSeparated rest

/-! ## `show_common.go`: printing discussions -/

/-- What `printDiscussions` writes and which calls it makes outside the
program, in order.  Formatted output is kept as the arguments of its format. -/
inductive ShowEvent where
  | getTime (key : String)
  | systemNote (username firstLine : String) (updatedAt : Int)
  | systemBody (text : String)
  | separator (indentHeader : String)
  | noteHeader (bold : Bool) (indentHeader : String) (id : Int) (username commented : String)
      (updatedAt : Int)
  | noteBody (bold : Bool) (indentNote body : String)
  | getUnifiedDiff (baseSHA headSHA oldPath newPath : String)
  | printf (s : String)
  | println (s : String)
  | diffLine (l : PrintedLine)
  | writeConfigEntry (key : String) (value : Int)
  deriving DecidableEq, Repr

/-- Everything outside the program that `printDiscussions` depends on: the
constant `CommandPrefix`, the clock at entry and at the later reading, the date
parser, the stored view time, the HTML and markdown renderers (normal and bold,
both taken to have been constructed), git, and the package variable
`mrShowNoColorDiff`. -/
structure ShowWorld where
  CommandPrefix : String
  nowAtEntry : Int
  nowLater : Int
  parseLocal : String → Except String Int
  getTime : String → Int
  html2text : String → String
  render : Bool → String → String
  getUnifiedDiff : String → String → String → String → Except String String
  mrShowNoColorDiff : Bool

/-- Output of a part of `printDiscussions` and whether it ended in a
run-time panic. -/
structure ShowResult where
  trace : List ShowEvent
  panicked : Bool
  deriving DecidableEq, Repr

/-- `displayCommitDiscussion` (show_common.go:119). -/
def displayCommitDiscussion (w : ShowWorld) (idNum : Int) (pos : NotePosition) : ShowResult :=
  let asked := ShowEvent.getUnifiedDiff pos.BaseSHA pos.HeadSHA pos.OldPath pos.NewPath
  match w.getUnifiedDiff pos.BaseSHA pos.HeadSHA pos.OldPath pos.NewPath with
  | .error _ =>
    ⟨[asked, .printf ("    Could not get unified diff: Execute 'lab mr checkout "
      ++ itoa idNum ++ "; git checkout master' and try again.\n")], false⟩
  | .ok diff =>
    if diff = "" then ⟨[asked, .println "    Could not find 'git diff' command."], false⟩
    else
      let file :=
        if pos.NewPath = pos.OldPath then ShowEvent.println ("File:" ++ pos.NewPath)
        else .println ("Files[old:" ++ pos.OldPath ++ " new:" ++ pos.NewPath ++ "]")
      let r := displayDiff w.mrShowNoColorDiff diff 0 pos.NewLine pos.OldLine
      if r.panicked then ⟨[asked, file] ++ r.printed.map .diffLine, true⟩
      else ⟨[asked, file] ++ r.printed.map .diffLine ++ [.println "", .println ""], false⟩

/-- `strings.SplitN(s, "\n", 2)`: the first line and, when there is a line
feed, what follows it. -/
def splitFirstLine (s : String) : String × Option String :=
  match s.data.splitOn '\n' with
  | [] => (s, none)
  | [l] => (String.mk l, none)
  | l :: rest => (String.mk l, some (String.mk ("\n".data.intercalate rest)))

/-- Body of the inner loop of `printDiscussions` for note `i` of a discussion
(show_common.go:193-266). -/
def printNote (w : ShowWorld) (comparetime : Int) (idNum : Int) (renderMarkdown : Bool)
    (discussion : Discussion) (i : Nat) (note : Note) : ShowResult :=
  let commented := if note.CreatedAt ≠ note.UpdatedAt then "updated comment" else "commented"
  let indentNote := if !discussion.IndividualNote then "    " else ""
  let commented :=
    if !discussion.IndividualNote ∧ i = 0 then
      (if note.Position.isSome then "started a commit discussion" else "started a discussion")
    else commented
  let indentHeader := if !discussion.IndividualNote ∧ i ≠ 0 then "    " else ""
  let noteBody := w.html2text (replaceNewlines note.Body "<br>\n")
  if note.System then
    match splitFirstLine noteBody with
    | (first, none) => ⟨[.systemNote note.AuthorUsername first note.UpdatedAt], false⟩
    | (first, some more) =>
      ⟨[.systemNote note.AuthorUsername first note.UpdatedAt,
        .systemBody (if renderMarkdown then w.render false more else more)], false⟩
  else
    let bold := decide (note.UpdatedAt > comparetime)
    let noteBody := if renderMarkdown then w.render bold noteBody else noteBody
    let noteBody := replaceNewlines noteBody ("\n" ++ indentNote)
    let head := [ShowEvent.separator indentHeader,
      .noteHeader bold indentHeader note.ID note.AuthorUsername commented note.UpdatedAt]
    match note.Position, i with
    | some pos, 0 =>
      let d := displayCommitDiscussion w idNum pos
      if d.panicked then ⟨head ++ d.trace, true⟩
      else ⟨head ++ d.trace ++ [.noteBody bold indentNote noteBody], false⟩
    | _, _ => ⟨head ++ [.noteBody bold indentNote noteBody], false⟩

/-- Inner loop of `printDiscussions` over the notes of a discussion, from note `i` on. -/
def printNotes (w : ShowWorld) (comparetime : Int) (idNum : Int) (renderMarkdown : Bool)
    (discussion : Discussion) : Nat → List Note → ShowResult
  | _, [] => ⟨[], false⟩
  | i, note :: rest =>
    let r := printNote w comparetime idNum renderMarkdown discussion i note
    if r.panicked then r
    else
      let r' := printNotes w comparetime idNum renderMarkdown discussion (i + 1) rest
      ⟨r.trace ++ r'.trace, r'.panicked⟩

/-- Outer loop of `printDiscussions` (show_common.go:190-268). -/
def printAll (w : ShowWorld) (comparetime : Int) (idNum : Int) (renderMarkdown : Bool) :
    List Discussion → ShowResult
  | [] => ⟨[], false⟩
  | discussion :: rest =>
    let r := printNotes w comparetime idNum renderMarkdown discussion 0 discussion.Notes
    if r.panicked then r
    else
      let r' := printAll w comparetime idNum renderMarkdown rest
      ⟨r.trace ++ r'.trace, r'.panicked⟩

/-- Values of `comparetime` and `sinceIsSet` after show_common.go:168-180,
with the configuration read made on the way. -/
structure Since where
  comparetime : Int
  sinceIsSet : Bool
  trace : List ShowEvent
  deriving DecidableEq, Repr

/-- Comparison time used when `since` gives none (show_common.go:175-179):
the stored view time or, when that is the zero time, the current time. -/
def storedSince (w : ShowWorld) (key : String) : Since :=
  ⟨if w.getTime key = 0 then w.nowLater else w.getTime key, false, [.getTime key]⟩

/-- Resolution of the comparison time (show_common.go:168-180). -/
def resolveSince (w : ShowWorld) (since key : String) : Since :=
  match w.parseLocal since with
  | .error _ => storedSince w key
  | .ok t => if t = 0 then storedSince w key else ⟨t, true, []⟩

/-- `printDiscussions` (show_common.go:163). -/
def printDiscussions (w : ShowWorld) (discussions : List Discussion) (since idstr : String)
    (idNum : Int) (renderMarkdown : Bool) : ShowResult :=
  let newAccessTime := w.nowAtEntry
  let issueEntry := idstr ++ itoa idNum
  let s := resolveSince w since (w.CommandPrefix ++ issueEntry)
  let r := printAll w s.comparetime idNum renderMarkdown discussions
  if r.panicked then ⟨s.trace ++ r.trace, true⟩
  else if s.sinceIsSet = false then
    ⟨s.trace ++ r.trace ++ [.writeConfigEntry (w.CommandPrefix ++ issueEntry) newAccessTime],
      false⟩
  else ⟨s.trace ++ r.trace, false⟩

/-! ### Reading of the claims about view state -/

/-- View-state writes of a trace, in order. -/
def viewStateWrites (tr : List ShowEvent) : List ShowEvent :=
  tr.filter fun e => match e with
    | .writeConfigEntry .. => true
    | _ => false

/-- Notes of a list of discussions that carry a diff position. -/
def positions (discussions : List Discussion) : List NotePosition :=
  (allNotes discussions).filterMap fun n => n.Position

/-- Whether git answers the diff request for a position with an error, an
empty text or a text `displayDiff` gets through. -/
def diffScansCleanlyAt (w : ShowWorld) (pos : NotePosition) : Bool :=
  match w.getUnifiedDiff pos.BaseSHA pos.HeadSHA pos.OldPath pos.NewPath with
  | .ok diff => diff = "" || scansCleanly diff
  | .error _ => true

/-- Whether git answers every diff request for these discussions with an
error, an empty text or a text `displayDiff` gets through. -/
def diffsScanCleanly (w : ShowWorld) (discussions : List Discussion) : Bool :=
  (positions discussions).all (diffScansCleanlyAt w)

/-! ### Worlds for closed examples -/

/-- A discussion with one user note, number 7, whose body is `old text`. -/
def exampleDiscussions : List Discussion :=
  [⟨"d1", false, [⟨7, "old text", false, "alice", 10, 10, none⟩]⟩]

/-- A discussion with one user note, number 7, whose body has two lines. -/
def exampleTwoLineDiscussions : List Discussion :=
  [⟨"d1", false, [⟨7, "line one\nline two", false, "alice", 10, 10, none⟩]⟩]

/-- A discussion with one system note, number 7. -/
def exampleSystemDiscussions : List Discussion :=
  [⟨"d1", false, [⟨7, "changed the description", true, "alice", 10, 10, none⟩]⟩]

/-- A world in which the editor hands back an empty text and every client
call answers with the URL `url`. -/
def exampleWorld (discussions : List Discussion) : World where
  listDiscussions := fun _ _ _ => .ok discussions
  respond := fun tr =>
    match tr.getLast? with
    | some (.editFile _ _) => .ok ""
    | _ => .ok "url"
  commentChar := "#"
  textToMarkdown := fun s => replaceNewlines s "  \n"
  callerFile := "note_common.go"

/-- A world in which the editor hands back the text `edited` and every client
call answers with the URL `url`. -/
def exampleEditingWorld (discussions : List Discussion) : World where
  listDiscussions := fun _ _ _ => .ok discussions
  respond := fun tr =>
    match tr.getLast? with
    | some (.editFile _ _) => .ok "edited"
    | _ => .ok "url"
  commentChar := "#"
  textToMarkdown := fun s => replaceNewlines s "  \n"
  callerFile := "note_common.go"

/-- A merge request discussion whose first note is anchored at new line 3 of a file. -/
def exampleDiffDiscussions : List Discussion :=
  [⟨"d1", false,
    [⟨7, "please rename", false, "alice", 10, 60, some ⟨"base", "head", "a.go", "a.go", 3, 0⟩⟩,
     ⟨8, "added 1 commit", true, "bob", 70, 70, none⟩]⟩]

/-- A world for `printDiscussions`: the date `2021-03-04` parses to the time
50, nothing else parses; no view time is stored; git hands back the diff of the
specification's scenario. -/
def exampleShowWorld : ShowWorld where
  CommandPrefix := "lab_"
  nowAtEntry := 100
  nowLater := 101
  parseLocal := fun s => if s = "2021-03-04" then .ok 50 else .error "could not parse"
  getTime := fun _ => 0
  html2text := fun s => s
  render := fun _ s => s
  getUnifiedDiff := fun _ _ _ _ => .ok "@@ -1,3 +1,4 @@\n a\n-b\n+c\n+d\n e"
  mrShowNoColorDiff := false

/-- The diff git prints, with `diff.suppressBlankEmpty` set, for a file of the
three lines `a`, an empty line and `b` whose third line is changed to `B`: the
empty context line is printed as an empty line. -/
def blankLineDiff : String :=
  "diff --git a/a.go b/a.go\n--- a/a.go\n+++ b/a.go\n@@ -1,3 +1,3 @@\n a\n\n-b\n+B"

/-- A world for `printDiscussions` in which nothing parses as a date, no view
time is stored, and git hands back `blankLineDiff`. -/
def blankLineWorld : ShowWorld where
  CommandPrefix := "lab_"
  nowAtEntry := 100
  nowLater := 101
  parseLocal := fun _ => .error "could not parse"
  getTime := fun _ => 0
  html2text := fun s => s
  render := fun _ s => s
  getUnifiedDiff := fun _ _ _ _ => .ok blankLineDiff
  mrShowNoColorDiff := false

/-! # Theorems -/

set_option maxRecDepth 20000

theorem decimal_eq (n : Nat) :
    decimal n = if n < 10 then [Nat.digitChar n] else decimal (n / 10) ++ [Nat.digitChar (n % 10)] := by
  rw [decimal]

theorem toDigitsCore_eq_decimal (fuel : Nat) : ∀ (n : Nat) (ds : List Char), n < fuel →
    Nat.toDigitsCore 10 fuel n ds = decimal n ++ ds := by
  induction fuel with
  | zero => intro n ds h; omega
  | succ fuel ih =>
    intro n ds h
    rw [decimal_eq n]
    simp only [Nat.toDigitsCore]
    by_cases h10 : n < 10
    · have h0 : n / 10 = 0 := by omega
      have hm : n % 10 = n := by omega
      simp [h0, hm, h10]
    · have h0 : n / 10 ≠ 0 := by omega
      have hlt : n / 10 < fuel := by omega
      simp [h0, h10, ih (n / 10) _ hlt]

theorem repr_data (n : Nat) : (Nat.repr n).data = decimal n := by
  simp [Nat.repr, Nat.toDigits, List.asString, toDigitsCore_eq_decimal (n + 1) n [] (Nat.lt_succ_self n)]

theorem digitChar_mem (k : Nat) (h : k < 10) :
    Nat.digitChar k ∈ ['0', '1', '2', '3', '4', '5', '6', '7', '8', '9'] := by
  interval_cases k <;> decide

theorem digitChar_toNat (k : Nat) (h : k < 10) : (Nat.digitChar k).toNat - 48 = k := by
  interval_cases k <;> decide

theorem decimal_mem (n : Nat) : ∀ c ∈ decimal n,
    c ∈ ['0', '1', '2', '3', '4', '5', '6', '7', '8', '9'] := by
  induction n using Nat.strong_induction_on with
  | _ n ih =>
    intro c hc
    rw [decimal_eq] at hc
    by_cases h10 : n < 10
    · simp only [h10, if_true, List.mem_singleton] at hc
      subst hc
      exact digitChar_mem n h10
    · simp only [h10, if_false, List.mem_append, List.mem_singleton] at hc
      rcases hc with hc | hc
      · exact ih (n / 10) (by omega) c hc
      · subst hc
        exact digitChar_mem _ (Nat.mod_lt _ (by decide))

theorem decimal_ne_nil (n : Nat) : decimal n ≠ [] := by
  rw [decimal_eq]
  split <;> simp

theorem digitsValue_decimal (n : Nat) : digitsValue (decimal n) = n := by
  induction n using Nat.strong_induction_on with
  | _ n ih =>
    rw [decimal_eq]
    by_cases h10 : n < 10
    · simp [h10, digitsValue, digitChar_toNat n h10]
    · have := ih (n / 10) (by omega)
      simp only [digitsValue] at this
      simp only [h10, if_false, digitsValue, List.foldl_append, List.foldl_cons, List.foldl_nil, this,
        digitChar_toNat _ (Nat.mod_lt n (by decide : 10 > 0))]
      omega

theorem decimal_length_mono : ∀ (m n : Nat), n ≤ m → (decimal n).length ≤ (decimal m).length := by
  intro m
  induction m using Nat.strong_induction_on with
  | _ m ih =>
    intro n hnm
    rw [decimal_eq n, decimal_eq m]
    by_cases hm : m < 10
    · have hn : n < 10 := by omega
      simp [hm, hn]
    · by_cases hn : n < 10
      · simp [hm, hn]
      · have := ih (m / 10) (by omega) (n / 10) (by omega)
        simp [hm, hn, this]

theorem utf8ByteSize_of_ascii (l : List Char) (h : ∀ c ∈ l, c.utf8Size = 1) :
    (String.mk l).utf8ByteSize = l.length := by
  induction l with
  | nil => rfl
  | cons c cs ih =>
    have h1 := h c (List.mem_cons_self _ _)
    have h2 := ih (fun c hc => h c (List.mem_cons_of_mem _ hc))
    simp only [String.utf8ByteSize, String.utf8ByteSize.go, List.length_cons] at h2 ⊢
    omega

theorem digit_facts (c : Char) (h : c ∈ ['0', '1', '2', '3', '4', '5', '6', '7', '8', '9']) :
    c.utf8Size = 1 ∧ c.isDigit = true ∧ c ≠ '+' ∧ c ≠ '-' ∧ c ≠ ' ' ∧ c ≠ ',' ∧ c ≠ '@' := by
  simp only [List.mem_cons, List.mem_singleton, List.not_mem_nil, or_false] at h
  rcases h with h | h | h | h | h | h | h | h | h | h <;> subst h <;> decide

theorem len_repr (n : Nat) : len (Nat.repr n) = digits n := by
  have h : Nat.repr n = String.mk (decimal n) := by
    apply String.ext; simp [repr_data]
  unfold len digits
  rw [h, utf8ByteSize_of_ascii _ (fun c hc => (digit_facts c (decimal_mem n c hc)).1)]
  simp [String.length]

theorem atoi_repr (n : Nat) (h : n < 2 ^ 63) : atoi (Nat.repr n) = n := by
  unfold atoi
  rw [repr_data]
  have hne := decimal_ne_nil n
  have hv := digitsValue_decimal n
  have hall := decimal_mem n
  cases hd : decimal n with
  | nil => exact absurd hd hne
  | cons c cs =>
    rw [hd] at hv hall
    have hc := digit_facts c (hall c (List.mem_cons_self _ _))
    have hdig : ∀ x ∈ c :: cs, x.isDigit = true := fun x hx => (digit_facts x (hall x hx)).2.1
    have hp : c ≠ '+' := hc.2.2.1
    have hm : c ≠ '-' := hc.2.2.2.1
    have hlt : ¬ (2 ^ 63 ≤ n) := by omega
    have hcs : ∀ x ∈ cs, x.isDigit = true := fun x hx => hdig x (List.mem_cons_of_mem _ hx)
    have hex : ¬ ∃ x ∈ cs, x.isDigit = false := by
      rintro ⟨x, hx, hf⟩
      rw [hcs x hx] at hf
      cases hf
    have hlt' : ¬ (9223372036854775808 ≤ n) := by omega
    simp [hp, hm, hv, hc.2.1, hex, hlt']

theorem maxPadding_repr (a b : Nat) (ha : a < 2 ^ 63) (hb : b < 2 ^ 63) :
    maxPadding (Nat.repr a) (Nat.repr b) = if a > b then digits a else digits b := by
  unfold maxPadding
  simp only [atoi_repr a ha, atoi_repr b hb, len_repr]
  by_cases h : a > b
  · have : (a : Int) > b := by exact_mod_cast h
    simp [h, this]
  · have : ¬ ((a : Int) > b) := by
      intro h'; exact h (by exact_mod_cast h')
    simp [h, this]

/-! ## The scan loop, one line at a time -/

theorem displayDiffLine_other (nc : Bool) (k newLine oldLine : Int) (text : String)
    (st : DiffState) (h : st.diffChunkNum ≠ k) :
    displayDiffLine nc k newLine oldLine text st = .next st := by
  simp [displayDiffLine, h]

theorem displayDiffLine_empty (nc : Bool) (k newLine oldLine : Int) (text : String)
    (st : DiffState) (h : st.diffChunkNum = k) (he : text.data = []) :
    displayDiffLine nc k newLine oldLine text st = .crash st := by
  simp [displayDiffLine, h, he]

theorem displayDiffLine_selected (nc : Bool) (k newLine oldLine : Int) (text : String)
    (st : DiffState) (h : st.diffChunkNum = k) (c : Char) (cs : List Char)
    (he : text.data = c :: cs) :
    displayDiffLine nc k newLine oldLine text st =
      .next { st with
        oldLineNum := (tagLine c st.oldLineNum st.newLineNum).oldLineNum
        newLineNum := (tagLine c st.oldLineNum st.newLineNum).newLineNum
        printed := st.printed ++
          (if inWindow newLine oldLine (tagLine c st.oldLineNum st.newLineNum).newLineNum
              (tagLine c st.oldLineNum st.newLineNum).oldLineNum then
            printDiffLine (if nc then "" else (tagLine c st.oldLineNum st.newLineNum).strColor)
              st.maxChars (tagLine c st.oldLineNum st.newLineNum).sOld
              (tagLine c st.oldLineNum st.newLineNum).sNew text
          else []) } := by
  simp [displayDiffLine, h, he]

theorem displayDiffLine_selected_ex (nc : Bool) (k newLine oldLine : Int) (text : String)
    (st : DiffState) (h : st.diffChunkNum = k) (c : Char) (cs : List Char)
    (he : text.data = c :: cs) :
    ∃ (st' : DiffState) (P : List PrintedLine),
      displayDiffLine nc k newLine oldLine text st = .next st' ∧
      st'.diffChunkNum = st.diffChunkNum ∧
      st'.oldLineNum = (tagLine c st.oldLineNum st.newLineNum).oldLineNum ∧
      st'.newLineNum = (tagLine c st.oldLineNum st.newLineNum).newLineNum ∧
      st'.maxChars = st.maxChars ∧
      st'.printed = st.printed ++ P ∧
      P = (if inWindow newLine oldLine (tagLine c st.oldLineNum st.newLineNum).newLineNum
              (tagLine c st.oldLineNum st.newLineNum).oldLineNum then
            printDiffLine (if nc then "" else (tagLine c st.oldLineNum st.newLineNum).strColor)
              st.maxChars (tagLine c st.oldLineNum st.newLineNum).sOld
              (tagLine c st.oldLineNum st.newLineNum).sNew text
          else []) :=
  ⟨_, _, displayDiffLine_selected nc k newLine oldLine text st h c cs he, rfl, rfl, rfl, rfl, rfl, rfl⟩

theorem displayDiffStep_content (nc : Bool) (k newLine oldLine : Int) (text : String)
    (st : DiffState) (h : isHunkHeader text = false) :
    displayDiffStep nc k newLine oldLine text st =
      displayDiffLine nc k newLine oldLine text st := by
  simp [displayDiffStep, h]

/-- What a header line does to the state: the hunk counter goes up by one, the
column width is recomputed, counters and output stay as they are. -/
theorem displayDiffStep_header (nc : Bool) (k newLine oldLine : Int) (text : String)
    (st : DiffState) (h : isHunkHeader text = true) :
    ∃ mc : Int,
      (displayDiffStep nc k newLine oldLine text st =
          .crash { st with diffChunkNum := st.diffChunkNum + 1 } ∧ wellFormedLine text = false) ∨
      (st.diffChunkNum + 1 ≤ k ∧ displayDiffStep nc k newLine oldLine text st =
          .next { st with diffChunkNum := st.diffChunkNum + 1, maxChars := mc }) ∨
      (st.diffChunkNum + 1 > k ∧ displayDiffStep nc k newLine oldLine text st =
          .stop { st with diffChunkNum := st.diffChunkNum + 1, maxChars := mc }) := by
  unfold displayDiffStep
  simp only [h, if_true]
  cases h1 : (split text ' ').get? 1 with
  | none =>
    refine ⟨0, Or.inl ⟨by simp, ?_⟩⟩
    have : (split text ' ').length ≤ 1 := by
      rw [List.get?_eq_none] at h1; exact h1
    simp [wellFormedLine, h]
    omega
  | some s1 =>
    cases h2 : (split text ' ').get? 2 with
    | none =>
      refine ⟨0, Or.inl ⟨by simp, ?_⟩⟩
      have : (split text ' ').length ≤ 2 := by
        rw [List.get?_eq_none] at h2; exact h2
      simp [wellFormedLine, h]
      omega
    | some s2 =>
      refine ⟨maxPadding ((split s1 ',').getLastD "") ((split s2 ',').getLastD "") + 1, ?_⟩
      by_cases heq : st.diffChunkNum + 1 = k
      · right; left
        exact ⟨by omega, by simp [heq]⟩
      · by_cases hgt : st.diffChunkNum + 1 > k
        · right; right
          exact ⟨hgt, by simp [heq, hgt]⟩
        · right; left
          refine ⟨by omega, ?_⟩
          simp only [heq, hgt, if_false]
          exact displayDiffLine_other _ _ _ _ _ _ heq

/-! ## Hunks as segments of the line list -/

theorem headSeg_cons_content (l : String) (ls : List String) (h : isHunkHeader l = false) :
    ((l :: ls).splitOnP isHunkHeader).headD [] = l :: (ls.splitOnP isHunkHeader).headD [] := by
  rw [List.splitOnP_cons]
  simp only [h, Bool.false_eq_true, if_false]
  cases hs : ls.splitOnP isHunkHeader with
  | nil => exact absurd hs (List.splitOnP_ne_nil _ _)
  | cons a as => simp [List.modifyHead]

theorem headSeg_cons_header (l : String) (ls : List String) (h : isHunkHeader l = true) :
    ((l :: ls).splitOnP isHunkHeader).headD [] = [] := by
  rw [List.splitOnP_cons]
  simp [h]

theorem hunkBody_cons_content (l : String) (ls : List String) (k : Nat)
    (h : isHunkHeader l = false) : hunkBody (l :: ls) k = hunkBody ls k := by
  unfold hunkBody
  rw [List.splitOnP_cons]
  simp only [h, Bool.false_eq_true, if_false]
  cases hs : ls.splitOnP isHunkHeader with
  | nil => exact absurd hs (List.splitOnP_ne_nil _ _)
  | cons a as => simp [List.modifyHead]

theorem hunkBody_cons_header_zero (l : String) (ls : List String)
    (h : isHunkHeader l = true) :
    hunkBody (l :: ls) 0 = (ls.splitOnP isHunkHeader).headD [] := by
  unfold hunkBody
  rw [List.splitOnP_cons]
  simp only [h, if_true]
  cases hs : ls.splitOnP isHunkHeader with
  | nil => exact absurd hs (List.splitOnP_ne_nil _ _)
  | cons a as => simp

theorem hunkBody_cons_header_succ (l : String) (ls : List String) (k : Nat)
    (h : isHunkHeader l = true) : hunkBody (l :: ls) (k + 1) = hunkBody ls k := by
  unfold hunkBody
  rw [List.splitOnP_cons]
  simp [h]

theorem hunkBody_nil (k : Nat) : hunkBody [] k = [] := by
  simp [hunkBody]

/-! ## What one content line of the selected hunk prints -/

theorem tagLine_strColor (c : Char) (o n : Int) :
    (tagLine c o n).strColor = "" ∨ (tagLine c o n).strColor = "red" ∨
      (tagLine c o n).strColor = "green" := by
  unfold tagLine
  split_ifs <;> simp

theorem printDiffLine_tagged (nc : Bool) (c : Char) (o n mc : Int) (sOld sNew text : String) :
    ∃ col, printDiffLine (if nc then "" else (tagLine c o n).strColor) mc sOld sNew text
      = [⟨col, mc, sOld, sNew, text⟩] := by
  cases nc
  · rcases tagLine_strColor c o n with h | h | h
    · exact ⟨.plain, by simp [h, printDiffLine]⟩
    · exact ⟨.red, by simp [h, printDiffLine]⟩
    · exact ⟨.green, by simp [h, printDiffLine]⟩
  · exact ⟨.plain, by simp [printDiffLine]⟩

theorem wrap64_sub_four (T : Int) (h1 : -2 ^ 63 ≤ T) (h2 : T < 2 ^ 63) :
    sub64 T 4 = T - 4 ∨ (T < sub64 T 4 ∧ T < 0) := by
  unfold sub64 wrap64
  norm_num at h1 h2 ⊢
  omega

theorem tagLine_counters (c : Char) (o n : Int) :
    (tagLine c o n).oldLineNum = o + (if c = ' ' ∨ c = '-' then 1 else 0) ∧
    (tagLine c o n).newLineNum = n + (if c = ' ' ∨ c = '+' then 1 else 0) := by
  unfold tagLine
  by_cases h1 : c = ' '
  · simp [h1]
  · by_cases h2 : c = '-'
    · subst h2; simp
    · by_cases h3 : c = '+'
      · subst h3; simp
      · simp [h1, h2, h3]

theorem advancesNew_cons (text : String) (c : Char) (cs : List Char) (he : text.data = c :: cs) :
    advancesNew text = decide (c = ' ' ∨ c = '+') := by
  simp [advancesNew, he]

theorem advancesOld_cons (text : String) (c : Char) (cs : List Char) (he : text.data = c :: cs) :
    advancesOld text = decide (c = ' ' ∨ c = '-') := by
  simp [advancesOld, he]

/-- One content line of the selected hunk: it prints nothing or itself, and a
printed line that advances the reference counter uses up one of the at most
five numbers of the window that are still ahead. -/
theorem selected_line_bound (nc : Bool) (newLine oldLine : Int)
    (hn : -2 ^ 63 ≤ newLine ∧ newLine < 2 ^ 63) (ho : -2 ^ 63 ≤ oldLine ∧ oldLine < 2 ^ 63)
    (text : String) (c : Char) (cs : List Char) (he : text.data = c :: cs) (o n mc : Int)
    (P : List PrintedLine)
    (hP : P = if inWindow newLine oldLine (tagLine c o n).newLineNum (tagLine c o n).oldLineNum then
        printDiffLine (if nc then "" else (tagLine c o n).strColor) mc (tagLine c o n).sOld
          (tagLine c o n).sNew text
      else []) :
    (P.map (·.ltext)).Sublist [text] ∧
    ((P.filter (advancesReference newLine)).length : Int)
        + max 0 (min (if newLine ≠ 0 then newLine - (tagLine c o n).newLineNum
            else oldLine - (tagLine c o n).oldLineNum) 5)
      ≤ max 0 (min (if newLine ≠ 0 then newLine - n else oldLine - o) 5) := by
  obtain ⟨col, hp⟩ := printDiffLine_tagged nc c o n mc (tagLine c o n).sOld (tagLine c o n).sNew text
  obtain ⟨hold, hnew⟩ := tagLine_counters c o n
  rw [hp] at hP
  by_cases hw : inWindow newLine oldLine (tagLine c o n).newLineNum (tagLine c o n).oldLineNum = true
  · rw [if_pos hw] at hP
    subst hP
    refine ⟨by simp, ?_⟩
    unfold inWindow at hw
    by_cases hnl : newLine = 0
    · simp only [hnl, ne_eq, not_true_eq_false, if_false, decide_eq_true_eq] at hw ⊢
      simp only [List.filter, advancesReference, ne_eq, not_true_eq_false, if_false,
        advancesOld_cons text c cs he]
      rw [hold] at hw ⊢
      rcases wrap64_sub_four oldLine ho.1 ho.2 with hs | hs
      · rw [hs] at hw
        by_cases hc : c = ' ' ∨ c = '-'
        · simp only [hc, if_true, decide_True, List.length_cons, List.length_nil] at hw ⊢
          omega
        · simp only [hc, if_false, decide_False, List.length_nil] at hw ⊢
          omega
      · omega
    · simp only [hnl, ne_eq, not_false_eq_true, if_true, decide_eq_true_eq] at hw ⊢
      simp only [List.filter, advancesReference, ne_eq, hnl, not_false_eq_true, if_true,
        advancesNew_cons text c cs he]
      rw [hnew] at hw ⊢
      rcases wrap64_sub_four newLine hn.1 hn.2 with hs | hs
      · rw [hs] at hw
        by_cases hc : c = ' ' ∨ c = '+'
        · simp only [hc, if_true, decide_True, List.length_cons, List.length_nil] at hw ⊢
          omega
        · simp only [hc, if_false, decide_False, List.length_nil] at hw ⊢
          omega
      · omega
  · rw [if_neg hw] at hP
    subst hP
    refine ⟨by simp, ?_⟩
    rw [hold, hnew]
    simp only [List.filter_nil, List.length_nil]
    by_cases hnl : newLine = 0
    · simp only [hnl, ne_eq, not_true_eq_false, if_false]
      by_cases hc : c = ' ' ∨ c = '-'
      · simp only [hc, if_true]; omega
      · simp only [hc, if_false]; omega
    · simp only [hnl, ne_eq, not_false_eq_true, if_true]
      by_cases hc : c = ' ' ∨ c = '+'
      · simp only [hc, if_true]; omega
      · simp only [hc, if_false]; omega

/-- Invariant of the scan loop: whatever is printed from a state on is a
subsequence of the selected hunk's remaining content lines, and at most five of
those lines advance the reference counter. -/
theorem loop_selected (nc : Bool) (k : Nat) (newLine oldLine : Int)
    (hn : -2 ^ 63 ≤ newLine ∧ newLine < 2 ^ 63) (ho : -2 ^ 63 ≤ oldLine ∧ oldLine < 2 ^ 63) :
    ∀ (lines : List String) (st : DiffState), st.diffChunkNum ≤ k →
    ∃ X, (displayDiffLoop nc k newLine oldLine lines st).printed = st.printed ++ X ∧
      (X.map (·.ltext)).Sublist
        (if st.diffChunkNum = k then (lines.splitOnP isHunkHeader).headD []
          else hunkBody lines (k - st.diffChunkNum - 1).toNat) ∧
      ((X.filter (advancesReference newLine)).length : Int)
        ≤ max 0 (min (if newLine ≠ 0 then newLine - st.newLineNum
            else oldLine - st.oldLineNum) 5) := by
  intro lines
  induction lines with
  | nil =>
    intro st _
    exact ⟨[], by simp [displayDiffLoop], by simp, by simp⟩
  | cons text rest ih =>
    intro st hle
    by_cases hh : isHunkHeader text = true
    · obtain ⟨mc, hcase⟩ := displayDiffStep_header nc k newLine oldLine text st hh
      rcases hcase with ⟨hstep, _⟩ | ⟨hle', hstep⟩ | ⟨_, hstep⟩
      · exact ⟨[], by simp [displayDiffLoop, hstep], by simp, by simp⟩
      · obtain ⟨X, hX, hsub, hb⟩ := ih { st with diffChunkNum := st.diffChunkNum + 1, maxChars := mc }
          (by simpa using hle')
        refine ⟨X, by simp [displayDiffLoop, hstep, hX], ?_, by simpa using hb⟩
        have hne : st.diffChunkNum ≠ k := by omega
        simp only [hne, if_false]
        simp only at hsub
        by_cases heq : st.diffChunkNum + 1 = k
        · simp only [heq, if_true] at hsub
          have h0 : ((k : Int) - st.diffChunkNum - 1).toNat = 0 := by omega
          rw [h0, hunkBody_cons_header_zero text rest hh]
          exact hsub
        · simp only [heq, if_false] at hsub
          have h1 : ((k : Int) - st.diffChunkNum - 1).toNat
              = ((k : Int) - (st.diffChunkNum + 1) - 1).toNat + 1 := by omega
          rw [h1, hunkBody_cons_header_succ text rest _ hh]
          exact hsub
      · exact ⟨[], by simp [displayDiffLoop, hstep], by simp, by simp⟩
    · have hh' : isHunkHeader text = false := by simpa using hh
      have hstep := displayDiffStep_content nc k newLine oldLine text st hh'
      by_cases hsel : st.diffChunkNum = k
      · cases he : text.data with
        | nil =>
          rw [displayDiffLine_empty nc k newLine oldLine text st hsel he] at hstep
          exact ⟨[], by simp [displayDiffLoop, hstep], by simp, by simp⟩
        | cons c cs =>
          obtain ⟨st', P, hline, hc', ho', hn', _, hp', hP⟩ :=
            displayDiffLine_selected_ex nc k newLine oldLine text st hsel c cs he
          rw [hline] at hstep
          obtain ⟨hs1, hs2⟩ := selected_line_bound nc newLine oldLine hn ho text c cs he
            st.oldLineNum st.newLineNum st.maxChars P hP
          obtain ⟨X, hX, hsub, hb⟩ := ih st' (by omega)
          refine ⟨P ++ X, by simp [displayDiffLoop, hstep, hX, hp'], ?_, ?_⟩
          · rw [hc'] at hsub
            simp only [hsel, if_true] at hsub ⊢
            rw [headSeg_cons_content text rest hh', List.map_append]
            exact List.Sublist.append hs1 hsub
          · rw [ho', hn'] at hb
            rw [List.filter_append, List.length_append]
            push_cast
            omega
      · rw [displayDiffLine_other nc k newLine oldLine text st hsel] at hstep
        obtain ⟨X, hX, hsub, hb⟩ := ih st hle
        refine ⟨X, by simp [displayDiffLoop, hstep, hX], ?_, hb⟩
        simp only [hsel, if_false] at hsub ⊢
        rw [hunkBody_cons_content text rest _ hh']
        exact hsub

/-! ## The window of a new-side target -/

theorem scanLines_eq_textLines (diff : String)
    (h : ((rawLines diff.data).all fun l =>
      decide ((String.mk l).utf8ByteSize < maxScanTokenSize)) = true) :
    scanLines diff = textLines diff := by
  unfold scanLines textLines
  rw [List.takeWhile_eq_self_iff.mpr]
  intro l hl
  exact List.all_eq_true.mp h l hl

theorem newLineNumberAt_cons_zero (t : String) (s : List String) :
    newLineNumberAt (t :: s) 0 = if advancesNew t then 1 else 0 := by
  unfold newLineNumberAt
  by_cases h : advancesNew t = true <;> simp [List.filter, h]

theorem newLineNumberAt_cons_succ (t : String) (s : List String) (i : Nat) :
    newLineNumberAt (t :: s) (i + 1) = (if advancesNew t then 1 else 0) + newLineNumberAt s i := by
  unfold newLineNumberAt
  by_cases h : advancesNew t = true
  · simp [List.filter, h]; omega
  · simp [List.filter, h]

/-- Unfolding of the window over a hunk by its first line. -/
theorem window_cons (L n : Int) (t : String) (s : List String) :
    ((List.range (t :: s).length).filterMap fun i =>
      if L - 4 ≤ n + newLineNumberAt (t :: s) i ∧ n + newLineNumberAt (t :: s) i ≤ L
      then (t :: s).get? i else none)
    = (if L - 4 ≤ n + (if advancesNew t then 1 else 0) ∧ n + (if advancesNew t then 1 else 0) ≤ L
        then [t] else []) ++
      ((List.range s.length).filterMap fun i =>
        if L - 4 ≤ (n + (if advancesNew t then 1 else 0)) + newLineNumberAt s i ∧
            (n + (if advancesNew t then 1 else 0)) + newLineNumberAt s i ≤ L
        then s.get? i else none) := by
  rw [List.length_cons, List.range_succ_eq_map, List.filterMap_cons, List.filterMap_map]
  have hfun : ((fun i => if L - 4 ≤ n + newLineNumberAt (t :: s) i ∧
        n + newLineNumberAt (t :: s) i ≤ L then (t :: s).get? i else none) ∘ Nat.succ)
      = fun i => if L - 4 ≤ (n + (if advancesNew t then 1 else 0)) + newLineNumberAt s i ∧
            (n + (if advancesNew t then 1 else 0)) + newLineNumberAt s i ≤ L
        then s.get? i else none := by
    funext i
    simp only [Function.comp, Nat.succ_eq_add_one, newLineNumberAt_cons_succ, List.get?_cons_succ,
      add_assoc]
  rw [hfun, newLineNumberAt_cons_zero]
  by_cases hw : L - 4 ≤ n + (if advancesNew t then 1 else 0) ∧ n + (if advancesNew t then 1 else 0) ≤ L
  · simp only [if_pos hw, List.get?_cons_zero]
    rfl
  · simp only [if_neg hw]
    rfl

/-- One content line of the selected hunk under a new-side target: it is
printed exactly when the new-side counter, once advanced, lies in the window. -/
theorem selected_line_new (nc : Bool) (L oldLine : Int) (hL : L ≠ 0)
    (hr : -2 ^ 63 ≤ L ∧ L < 2 ^ 63)
    (text : String) (c : Char) (cs : List Char) (he : text.data = c :: cs) (o n mc : Int)
    (hn : 0 ≤ n) (P : List PrintedLine)
    (hP : P = if inWindow L oldLine (tagLine c o n).newLineNum (tagLine c o n).oldLineNum then
        printDiffLine (if nc then "" else (tagLine c o n).strColor) mc (tagLine c o n).sOld
          (tagLine c o n).sNew text
      else []) :
    (tagLine c o n).newLineNum = n + (if advancesNew text then 1 else 0) ∧
    P.map (·.ltext) =
      if L - 4 ≤ n + (if advancesNew text then 1 else 0) ∧
        n + (if advancesNew text then 1 else 0) ≤ L then [text] else [] := by
  obtain ⟨col, hp⟩ := printDiffLine_tagged nc c o n mc (tagLine c o n).sOld (tagLine c o n).sNew text
  obtain ⟨_, hnew⟩ := tagLine_counters c o n
  have hadv : (if advancesNew text then (1 : Int) else 0) = if c = ' ' ∨ c = '+' then 1 else 0 := by
    rw [advancesNew_cons text c cs he]
    by_cases hc : c = ' ' ∨ c = '+' <;> simp [hc]
  rw [hadv, ← hnew]
  refine ⟨rfl, ?_⟩
  have hge : 0 ≤ (tagLine c o n).newLineNum := by
    rw [hnew]; split_ifs <;> omega
  have hiff : inWindow L oldLine (tagLine c o n).newLineNum (tagLine c o n).oldLineNum = true ↔
      (L - 4 ≤ (tagLine c o n).newLineNum ∧ (tagLine c o n).newLineNum ≤ L) := by
    unfold inWindow
    simp only [ne_eq, hL, not_false_eq_true, if_true, decide_eq_true_eq]
    rcases wrap64_sub_four L hr.1 hr.2 with hs | ⟨hs, hneg⟩
    · rw [hs]; constructor <;> intro h <;> exact ⟨h.2, h.1⟩
    · constructor <;> intro h <;> omega
  rw [hP, hp]
  by_cases hw : inWindow L oldLine (tagLine c o n).newLineNum (tagLine c o n).oldLineNum = true
  · rw [if_pos hw, if_pos (hiff.mp hw)]; rfl
  · rw [if_neg hw, if_neg (fun h => hw (hiff.mpr h))]; rfl

theorem wellFormedLine_data (l : String) (h : wellFormedLine l = true) :
    ∃ c cs, l.data = c :: cs := by
  cases hd : l.data with
  | nil => simp [wellFormedLine, hd] at h
  | cons c cs => exact ⟨c, cs, rfl⟩

/-- Inside hunk 0 under a new-side target: the loop prints the window of the
remaining content lines and ends without a panic. -/
theorem loop_in_hunk_new (nc : Bool) (L oldLine : Int) (hL : L ≠ 0)
    (hr : -2 ^ 63 ≤ L ∧ L < 2 ^ 63) :
    ∀ (lines : List String) (st : DiffState), st.diffChunkNum = 0 →
      (∀ l ∈ lines, wellFormedLine l = true) → 0 ≤ st.newLineNum →
      (displayDiffLoop nc 0 L oldLine lines st).panicked = false ∧
      (displayDiffLoop nc 0 L oldLine lines st).printed.map (·.ltext) =
        st.printed.map (·.ltext) ++
          ((List.range ((lines.splitOnP isHunkHeader).headD []).length).filterMap fun i =>
            if L - 4 ≤ st.newLineNum + newLineNumberAt ((lines.splitOnP isHunkHeader).headD []) i ∧
              st.newLineNum + newLineNumberAt ((lines.splitOnP isHunkHeader).headD []) i ≤ L
            then ((lines.splitOnP isHunkHeader).headD []).get? i else none) := by
  intro lines
  induction lines with
  | nil => intro st _ _ _; simp [displayDiffLoop]
  | cons text rest ih =>
    intro st hsel hwf hn
    have hwf1 := hwf text (List.mem_cons_self _ _)
    have hwf2 : ∀ l ∈ rest, wellFormedLine l = true := fun l hl => hwf l (List.mem_cons_of_mem _ hl)
    by_cases hh : isHunkHeader text = true
    · obtain ⟨mc, hcase⟩ := displayDiffStep_header nc 0 L oldLine text st hh
      rcases hcase with ⟨_, hbad⟩ | ⟨hle', _⟩ | ⟨_, hstep⟩
      · rw [hwf1] at hbad; cases hbad
      · omega
      · rw [headSeg_cons_header text rest hh]
        simp [displayDiffLoop, hstep]
    · have hh' : isHunkHeader text = false := by simpa using hh
      have hstep := displayDiffStep_content nc 0 L oldLine text st hh'
      obtain ⟨c, cs, he⟩ := wellFormedLine_data text hwf1
      obtain ⟨st', P, hline, hc', _, hn', _, hp', hP⟩ :=
        displayDiffLine_selected_ex nc 0 L oldLine text st hsel c cs he
      rw [hline] at hstep
      obtain ⟨hnum, hmap⟩ := selected_line_new nc L oldLine hL hr text c cs he
        st.oldLineNum st.newLineNum st.maxChars hn P hP
      have hn0 : 0 ≤ st'.newLineNum := by
        rw [hn', hnum]; split_ifs <;> omega
      obtain ⟨ih1, ih2⟩ := ih st' (by rw [hc', hsel]) hwf2 hn0
      rw [headSeg_cons_content text rest hh', window_cons]
      simp only [displayDiffLoop, hstep]
      refine ⟨ih1, ?_⟩
      rw [ih2, hp', List.map_append, hmap, hn', hnum, List.append_assoc]

/-- Before hunk 0 under a new-side target: nothing is printed until the first
header, then the window of hunk 0. -/
theorem loop_before_hunk_new (nc : Bool) (L oldLine : Int) (hL : L ≠ 0)
    (hr : -2 ^ 63 ≤ L ∧ L < 2 ^ 63) :
    ∀ (lines : List String) (st : DiffState), st.diffChunkNum = -1 → st.printed = [] →
      st.newLineNum = 0 → (∀ l ∈ lines, wellFormedLine l = true) →
      (displayDiffLoop nc 0 L oldLine lines st).panicked = false ∧
      (displayDiffLoop nc 0 L oldLine lines st).printed.map (·.ltext) =
        newSideWindow (hunkBody lines 0) L := by
  intro lines
  induction lines with
  | nil => intro st _ hp _ _; simp [displayDiffLoop, hp, hunkBody_nil, newSideWindow]
  | cons text rest ih =>
    intro st hc hp hn hwf
    have hwf1 := hwf text (List.mem_cons_self _ _)
    have hwf2 : ∀ l ∈ rest, wellFormedLine l = true := fun l hl => hwf l (List.mem_cons_of_mem _ hl)
    by_cases hh : isHunkHeader text = true
    · obtain ⟨mc, hcase⟩ := displayDiffStep_header nc 0 L oldLine text st hh
      rcases hcase with ⟨_, hbad⟩ | ⟨_, hstep⟩ | ⟨hgt, _⟩
      · rw [hwf1] at hbad; cases hbad
      · obtain ⟨h1, h2⟩ := loop_in_hunk_new nc L oldLine hL hr rest
          { st with diffChunkNum := st.diffChunkNum + 1, maxChars := mc }
          (by simp [hc]) hwf2 (by simp [hn])
        simp only [displayDiffLoop, hstep]
        refine ⟨h1, ?_⟩
        rw [h2, hunkBody_cons_header_zero text rest hh]
        simp [hp, hn, newSideWindow]
      · omega
    · have hh' : isHunkHeader text = false := by simpa using hh
      have hstep := displayDiffStep_content nc 0 L oldLine text st hh'
      rw [displayDiffLine_other nc 0 L oldLine text st (by omega)] at hstep
      simp only [displayDiffLoop, hstep]
      rw [hunkBody_cons_content text rest 0 hh']
      exact ih st hc hp hn hwf2

/-! ## Hunk headers -/

theorem repr_eq_mk (n : Nat) : Nat.repr n = String.mk (decimal n) := by
  apply String.ext; simp [repr_data]

theorem hunkHeader_data (a b c d : Nat) (heading : String) :
    (hunkHeader a b c d heading).data =
      ['@', '@'] ++ ' ' :: (('-' :: decimal a ++ ',' :: decimal b) ++
        ' ' :: (('+' :: decimal c ++ ',' :: decimal d) ++ ' ' :: ('@' :: '@' :: heading.data))) := by
  simp [hunkHeader, String.data_append, repr_data]

theorem isHunkHeader_hunkHeader (a b c d : Nat) (heading : String) :
    isHunkHeader (hunkHeader a b c d heading) = true := by
  simp [isHunkHeader, hunkHeader_data]

theorem range_no_blank (s : Char) (hs : s = '-' ∨ s = '+') (a b : Nat) :
    ∀ x ∈ s :: decimal a ++ ',' :: decimal b, ¬ ((x == ' ') = true) := by
  intro x hx
  simp only [List.cons_append, List.mem_cons, List.mem_append] at hx
  rcases hx with hx | hx | hx | hx
  · rcases hs with hs | hs <;> (subst hx; subst hs; decide)
  · have := (digit_facts x (decimal_mem a x hx)).2.2.2.2.1
    simpa using this
  · subst hx; decide
  · have := (digit_facts x (decimal_mem b x hx)).2.2.2.2.1
    simpa using this

theorem split_hunkHeader (a b c d : Nat) (heading : String) :
    split (hunkHeader a b c d heading) ' ' =
      "@@" :: String.mk ('-' :: decimal a ++ ',' :: decimal b) ::
        String.mk ('+' :: decimal c ++ ',' :: decimal d) ::
          (('@' :: '@' :: heading.data).splitOn ' ').map String.mk := by
  unfold split
  rw [hunkHeader_data, List.splitOn,
    List.splitOnP_first _ ['@', '@'] (by decide) ' ' (by decide),
    List.splitOnP_first _ _ (range_no_blank '-' (Or.inl rfl) a b) ' ' (by decide),
    List.splitOnP_first _ _ (range_no_blank '+' (Or.inr rfl) c d) ' ' (by decide)]
  rfl

theorem split_range (s : Char) (hs : s = '-' ∨ s = '+') (a b : Nat) :
    (split (String.mk (s :: decimal a ++ ',' :: decimal b)) ',').getLastD "" = Nat.repr b := by
  unfold split
  have h1 : ∀ x ∈ s :: decimal a, ¬ ((x == ',') = true) := by
    intro x hx
    simp only [List.mem_cons] at hx
    rcases hx with hx | hx
    · rcases hs with hs | hs <;> (subst hx; subst hs; decide)
    · have := (digit_facts x (decimal_mem a x hx)).2.2.2.2.2.1
      simpa using this
  have h2 : ∀ x ∈ decimal b, ¬ ((x == ',') = true) := by
    intro x hx
    have := (digit_facts x (decimal_mem b x hx)).2.2.2.2.2.1
    simpa using this
  have hd : (String.mk (s :: decimal a ++ ',' :: decimal b)).data
      = (s :: decimal a) ++ ',' :: decimal b := by simp
  rw [hd, List.splitOn, List.splitOnP_first _ _ h1 ',' (by decide),
    List.splitOnP_eq_single _ _ h2, repr_eq_mk]
  rfl

theorem digits_eq (n : Nat) : digits n = ((decimal n).length : Nat) := by
  unfold digits
  rw [repr_eq_mk]
  rfl

theorem maxPadding_counts (b d : Nat) (hb : b < 2 ^ 63) (hd : d < 2 ^ 63) :
    maxPadding (Nat.repr b) (Nat.repr d) = max (digits b) (digits d) := by
  rw [maxPadding_repr b d hb hd]
  by_cases h : b > d
  · have := decimal_length_mono b d (by omega)
    simp only [h, if_true, digits_eq]
    omega
  · have := decimal_length_mono d b (by omega)
    simp only [h, if_false, digits_eq]
    omega

/-- What a well-formed header with both counts does to the state. -/
theorem displayDiffStep_hunkHeader (nc : Bool) (k newLine oldLine : Int) (a b c d : Nat)
    (heading : String) (st : DiffState) :
    (st.diffChunkNum + 1 ≤ k ∧
      displayDiffStep nc k newLine oldLine (hunkHeader a b c d heading) st =
        .next { st with diffChunkNum := st.diffChunkNum + 1,
                        maxChars := maxPadding (Nat.repr b) (Nat.repr d) + 1 }) ∨
    (st.diffChunkNum + 1 > k ∧
      displayDiffStep nc k newLine oldLine (hunkHeader a b c d heading) st =
        .stop { st with diffChunkNum := st.diffChunkNum + 1,
                        maxChars := maxPadding (Nat.repr b) (Nat.repr d) + 1 }) := by
  unfold displayDiffStep
  simp only [isHunkHeader_hunkHeader, if_true, split_hunkHeader]
  simp only [List.get?_cons_succ, List.get?_cons_zero, split_range '-' (Or.inl rfl),
    split_range '+' (Or.inr rfl)]
  by_cases heq : st.diffChunkNum + 1 = k
  · left
    exact ⟨by omega, by simp [heq]⟩
  · by_cases hgt : st.diffChunkNum + 1 > k
    · right
      exact ⟨hgt, by simp [heq, hgt]⟩
    · left
      refine ⟨by omega, ?_⟩
      simp only [heq, hgt, if_false]
      exact displayDiffLine_other _ _ _ _ _ _ heq

/-! ## Counters at the start of the selected hunk -/

theorem displayDiffLine_extends (nc : Bool) (k newLine oldLine : Int) (text : String)
    (st : DiffState) :
    ∃ P, (displayDiffLine nc k newLine oldLine text st).state.printed = st.printed ++ P := by
  by_cases hsel : st.diffChunkNum = k
  · cases he : text.data with
    | nil =>
      rw [displayDiffLine_empty nc k newLine oldLine text st hsel he]
      exact ⟨[], by simp [Flow.state]⟩
    | cons c cs =>
      obtain ⟨st', P, hline, _, _, _, _, hp', _⟩ :=
        displayDiffLine_selected_ex nc k newLine oldLine text st hsel c cs he
      rw [hline]
      exact ⟨P, hp'⟩
  · rw [displayDiffLine_other nc k newLine oldLine text st hsel]
    exact ⟨[], by simp [Flow.state]⟩

theorem displayDiffStep_extends (nc : Bool) (k newLine oldLine : Int) (text : String)
    (st : DiffState) :
    ∃ P, (displayDiffStep nc k newLine oldLine text st).state.printed = st.printed ++ P := by
  by_cases hh : isHunkHeader text = true
  · obtain ⟨mc, hcase⟩ := displayDiffStep_header nc k newLine oldLine text st hh
    rcases hcase with ⟨hstep, _⟩ | ⟨_, hstep⟩ | ⟨_, hstep⟩ <;>
      exact ⟨[], by simp [hstep, Flow.state]⟩
  · have hh' : isHunkHeader text = false := by simpa using hh
    rw [displayDiffStep_content nc k newLine oldLine text st hh']
    exact displayDiffLine_extends nc k newLine oldLine text st

/-- The loop only ever appends to what has been printed. -/
theorem displayDiffLoop_extends (nc : Bool) (k newLine oldLine : Int) :
    ∀ (lines : List String) (st : DiffState),
      ∃ X, (displayDiffLoop nc k newLine oldLine lines st).printed = st.printed ++ X := by
  intro lines
  induction lines with
  | nil => intro st; exact ⟨[], by simp [displayDiffLoop]⟩
  | cons text rest ih =>
    intro st
    obtain ⟨P, hP⟩ := displayDiffStep_extends nc k newLine oldLine text st
    cases hstep : displayDiffStep nc k newLine oldLine text st with
    | next st' =>
      rw [hstep] at hP
      obtain ⟨X, hX⟩ := ih st'
      refine ⟨P ++ X, ?_⟩
      simp only [displayDiffLoop, hstep, hX]
      simp only [Flow.state] at hP
      rw [hP, List.append_assoc]
    | stop st' =>
      rw [hstep] at hP
      exact ⟨P, by simpa [displayDiffLoop, hstep, Flow.state] using hP⟩
    | crash st' =>
      rw [hstep] at hP
      exact ⟨P, by simpa [displayDiffLoop, hstep, Flow.state] using hP⟩

/-- Lines before the selected hunk change nothing but the hunk counter and the
column width. -/
theorem loop_skip (nc : Bool) (k newLine oldLine : Int) (rest : List String) :
    ∀ (pre : List String) (st : DiffState),
      st.diffChunkNum + ((pre.filter isHunkHeader).length : Nat) < k →
      (∀ l ∈ pre, isHunkHeader l = true → wellFormedLine l = true) →
      ∃ mc, displayDiffLoop nc k newLine oldLine (pre ++ rest) st =
        displayDiffLoop nc k newLine oldLine rest
          { st with diffChunkNum := st.diffChunkNum + ((pre.filter isHunkHeader).length : Nat),
                    maxChars := mc } := by
  intro pre
  induction pre with
  | nil =>
    intro st _ _
    exact ⟨st.maxChars, by simp⟩
  | cons text pre ih =>
    intro st hlt hwf
    have hwf2 : ∀ l ∈ pre, isHunkHeader l = true → wellFormedLine l = true :=
      fun l hl => hwf l (List.mem_cons_of_mem _ hl)
    by_cases hh : isHunkHeader text = true
    · have hcount : ((text :: pre).filter isHunkHeader).length
          = (pre.filter isHunkHeader).length + 1 := by simp [List.filter, hh]
      rw [hcount] at hlt ⊢
      push_cast at hlt ⊢
      obtain ⟨mc, hcase⟩ := displayDiffStep_header nc k newLine oldLine text st hh
      rcases hcase with ⟨_, hbad⟩ | ⟨_, hstep⟩ | ⟨hgt, _⟩
      · rw [hwf text (List.mem_cons_self _ _) hh] at hbad; cases hbad
      · obtain ⟨mc', hmc'⟩ := ih { st with diffChunkNum := st.diffChunkNum + 1, maxChars := mc }
          (by simp only; omega) hwf2
        refine ⟨mc', ?_⟩
        have harith : st.diffChunkNum + 1 + ((pre.filter isHunkHeader).length : Nat)
            = st.diffChunkNum + (((pre.filter isHunkHeader).length : Nat) + 1) := by omega
        rw [List.cons_append]
        simp only [displayDiffLoop, hstep]
        rw [hmc']
        simp only [harith]
      · omega
    · have hh' : isHunkHeader text = false := by simpa using hh
      have hcount : ((text :: pre).filter isHunkHeader).length
          = (pre.filter isHunkHeader).length := by simp [List.filter, hh']
      rw [hcount] at hlt ⊢
      have hstep := displayDiffStep_content nc k newLine oldLine text st hh'
      rw [displayDiffLine_other nc k newLine oldLine text st (by omega)] at hstep
      obtain ⟨mc', hmc'⟩ := ih st hlt hwf2
      refine ⟨mc', ?_⟩
      rw [List.cons_append]
      simp only [displayDiffLoop, hstep]
      exact hmc'

theorem headSeg_prefix (suf : List String) : ∀ pre : List String,
    (pre.splitOnP isHunkHeader).headD [] <+: ((pre ++ suf).splitOnP isHunkHeader).headD [] := by
  intro pre
  induction pre with
  | nil => simp
  | cons l pre ih =>
    by_cases hh : isHunkHeader l = true
    · rw [List.cons_append, headSeg_cons_header l pre hh, headSeg_cons_header l _ hh]
    · have hh' : isHunkHeader l = false := by simpa using hh
      rw [List.cons_append, headSeg_cons_content l pre hh', headSeg_cons_content l _ hh']
      exact (List.prefix_cons_inj l).mpr ih

/-- The content lines of a hunk seen in a leading part of the text are a
leading part of its content lines. -/
theorem hunkBody_prefix (suf : List String) : ∀ (pre : List String) (k : Nat),
    hunkBody pre k <+: hunkBody (pre ++ suf) k := by
  intro pre
  induction pre with
  | nil => intro k; simp [hunkBody_nil]
  | cons l pre ih =>
    intro k
    by_cases hh : isHunkHeader l = true
    · cases k with
      | zero =>
        rw [List.cons_append, hunkBody_cons_header_zero l pre hh,
          hunkBody_cons_header_zero l _ hh]
        exact headSeg_prefix suf pre
      | succ k =>
        rw [List.cons_append, hunkBody_cons_header_succ l pre k hh,
          hunkBody_cons_header_succ l _ k hh]
        exact ih k
    · have hh' : isHunkHeader l = false := by simpa using hh
      rw [List.cons_append, hunkBody_cons_content l pre k hh', hunkBody_cons_content l _ k hh']
      exact ih k

theorem scanLines_prefix (diff : String) : scanLines diff <+: textLines diff := by
  unfold scanLines textLines
  exact List.IsPrefix.map _ (List.takeWhile_prefix _)

/-! ## Claims about the diff renderer -/

/-- On a text that scans cleanly and for a non-zero new-side target `L` in the
`int` range, `displayDiff(diff, 0, L, oldLine)` runs to completion and prints, in
their original order, exactly the content lines of hunk 0 whose computed
new-line-number lies in `[L - 4, L]`. -/
theorem displayDiff_window_of_clean_text (nc : Bool) (diff : String) (L oldLine : Int)
    (hclean : scansCleanly diff = true) (hL : L ≠ 0)
    (hr : -2 ^ 63 ≤ L ∧ L < 2 ^ 63) :
    (displayDiff nc diff 0 L oldLine).panicked = false ∧
    (displayDiff nc diff 0 L oldLine).printed.map (·.ltext)
      = newSideWindow (hunkBody (textLines diff) 0) L := by
  unfold scansCleanly at hclean
  rw [Bool.and_eq_true] at hclean
  unfold displayDiff
  rw [scanLines_eq_textLines diff hclean.1]
  exact loop_before_hunk_new nc L oldLine hL hr (textLines diff) DiffState.init rfl rfl rfl
    (fun l hl => List.all_eq_true.mp hclean.2 l hl)

/-- The diff of the specification's scenario with target new line 3: the lines
` a`, `-b`, `+c`, `+d` are printed. -/
theorem displayDiff_window_of_clean_text_example :
    scansCleanly "@@ -1,3 +1,4 @@\n a\n-b\n+c\n+d\n e" = true ∧ (3 : Int) ≠ 0 ∧
    (-2 ^ 63 ≤ (3 : Int) ∧ (3 : Int) < 2 ^ 63) ∧
    ((displayDiff false "@@ -1,3 +1,4 @@\n a\n-b\n+c\n+d\n e" 0 3 0).panicked = false ∧
      (displayDiff false "@@ -1,3 +1,4 @@\n a\n-b\n+c\n+d\n e" 0 3 0).printed.map (·.ltext)
        = newSideWindow (hunkBody (textLines "@@ -1,3 +1,4 @@\n a\n-b\n+c\n+d\n e") 0) 3) :=
  ⟨by decide, by decide, by decide,
    displayDiff_window_of_clean_text false "@@ -1,3 +1,4 @@\n a\n-b\n+c\n+d\n e" 3 0
      (by decide) (by decide) (by decide)⟩

/-- C1 (code defect): on a unified diff with an empty context line, as git
prints it under `diff.suppressBlankEmpty`, and the new-side target 3,
`displayDiff` prints the line ` a` and then ends in the index panic of
`ltext[0]` (show_common.go:84) on the empty line; the claim has it print the
four content lines of hunk 0, all of which have a computed new-line-number in
`[-1, 3]`. -/
theorem displayDiff_panics_on_empty_context_line :
    displayDiff false blankLineDiff 0 3 0 = ⟨[⟨.plain, 2, "1", "1", " a"⟩], true⟩ ∧
    newSideWindow (hunkBody (textLines blankLineDiff) 0) 3 = [" a", "", "-b", "+B"] := by
  decide

/-- The scenario of the specification with target new line 4: all five lines
are printed, numbered ` a` old 1 new 1, `-b` old 2, `+c` new 2, `+d` new 3 and
` e` old 3 new 4. -/
theorem displayDiff_scenario_counters :
    displayDiff false "@@ -1,3 +1,4 @@\n a\n-b\n+c\n+d\n e" 0 4 0
      = ⟨[⟨.plain, 2, "1", "1", " a"⟩, ⟨.red, 2, "2", " ", "-b"⟩, ⟨.green, 2, " ", "2", "+c"⟩,
          ⟨.green, 2, " ", "3", "+d"⟩, ⟨.plain, 2, "3", "4", " e"⟩], false⟩ := by
  decide

/-- C2 as stated fails: for a hunk that removes ten lines after its first line
and the new-side target 2, `displayDiff` prints twelve lines, more than nine. -/
theorem displayDiff_more_than_nine_lines :
    ¬ ((displayDiff false
        "@@ -1,12 +1,2 @@\n a\n-b\n-c\n-d\n-e\n-f\n-g\n-h\n-i\n-j\n-k\n z" 0 2 0).printed.length
      ≤ 9) := by
  decide

/-- C2 (amended): for every unified-diff text, hunk index and target line
reference in the `int` range, every line `displayDiff` prints is a content line
of the selected hunk, in the original order, and at most five of the printed
lines advance the counter the target refers to. -/
theorem displayDiff_prints_from_selected_hunk (nc : Bool) (diff : String) (k : Nat)
    (newLine oldLine : Int)
    (hn : -2 ^ 63 ≤ newLine ∧ newLine < 2 ^ 63) (ho : -2 ^ 63 ≤ oldLine ∧ oldLine < 2 ^ 63) :
    ((displayDiff nc diff k newLine oldLine).printed.map (·.ltext)).Sublist
      (hunkBody (textLines diff) k) ∧
    ((displayDiff nc diff k newLine oldLine).printed.filter
      (advancesReference newLine)).length ≤ 5 := by
  obtain ⟨X, hX, hsub, hb⟩ := loop_selected nc k newLine oldLine hn ho (scanLines diff)
    DiffState.init (by simp only [DiffState.init]; omega)
  unfold displayDiff
  rw [hX]
  have hne : ¬ (DiffState.init.diffChunkNum = (k : Int)) := by
    simp only [DiffState.init]; omega
  have hk : ((k : Int) - DiffState.init.diffChunkNum - 1).toNat = k := by
    simp only [DiffState.init]; omega
  rw [if_neg hne, hk] at hsub
  obtain ⟨suf, hsuf⟩ := scanLines_prefix diff
  have hpre := hunkBody_prefix suf (scanLines diff) k
  rw [hsuf] at hpre
  refine ⟨?_, ?_⟩
  · simpa [DiffState.init] using hsub.trans hpre.sublist
  · have : ((X.filter (advancesReference newLine)).length : Int) ≤ 5 := by omega
    simpa [DiffState.init] using this

/-- C2 (amended) at the diff of the specification's scenario with target new
line 3. -/
theorem displayDiff_prints_from_selected_hunk_witness :
    (-2 ^ 63 ≤ (3 : Int) ∧ (3 : Int) < 2 ^ 63) ∧ (-2 ^ 63 ≤ (0 : Int) ∧ (0 : Int) < 2 ^ 63) ∧
    (((displayDiff false "@@ -1,3 +1,4 @@\n a\n-b\n+c\n+d\n e" 0 3 0).printed.map
        (·.ltext)).Sublist (hunkBody (textLines "@@ -1,3 +1,4 @@\n a\n-b\n+c\n+d\n e") 0) ∧
      ((displayDiff false "@@ -1,3 +1,4 @@\n a\n-b\n+c\n+d\n e" 0 3 0).printed.filter
        (advancesReference 3)).length ≤ 5) :=
  ⟨by decide, by decide,
    displayDiff_prints_from_selected_hunk false "@@ -1,3 +1,4 @@\n a\n-b\n+c\n+d\n e" 0 3 0
      (by decide) (by decide)⟩

/-- C3 as stated fails: for the hunk header `@@ -10,3 +20,4 @@` the first
context line is printed with the numbers 1 and 1, not 10 and 20. -/
theorem displayDiff_counters_not_reset :
    (displayDiff false "@@ -10,3 +20,4 @@\n a" 0 1 0).printed
        = [⟨.plain, 2, "1", "1", " a"⟩] ∧
      (displayDiff false "@@ -10,3 +20,4 @@\n a" 0 1 0).printed
        ≠ [⟨.plain, 2, "10", "20", " a"⟩] := by
  decide

/-- C3 (amended): the counters of `displayDiff` are set to zero once, on entry,
and no hunk header changes them: when the selected hunk has header
`@@ -a,b +c,d @@` and starts with a context line that falls into the window,
that line is printed first and numbered old = 1 and new = 1, whatever `a` and
`c` are (the numbers are file line numbers exactly when `a = c = 1`). -/
theorem displayDiff_first_context_line (nc : Bool) (diff : String) (k : Nat)
    (newLine oldLine : Int) (a b c d : Nat) (heading : String)
    (pre rest : List String) (ctx : String) (cs : List Char)
    (hlines : scanLines diff = pre ++ hunkHeader a b c d heading :: ctx :: rest)
    (hpre : (pre.filter isHunkHeader).length = k)
    (hwf : ∀ l ∈ pre, isHunkHeader l = true → wellFormedLine l = true)
    (hctx : ctx.data = ' ' :: cs)
    (hwin : inWindow newLine oldLine 1 1 = true)
    (hb : b < 2 ^ 63) (hd : d < 2 ^ 63) :
    (displayDiff nc diff k newLine oldLine).printed.head?
      = some ⟨.plain, max (digits b) (digits d) + 1, "1", "1", ctx⟩ := by
  unfold displayDiff
  rw [hlines]
  obtain ⟨mc, hskip⟩ := loop_skip nc k newLine oldLine
    (hunkHeader a b c d heading :: ctx :: rest) pre DiffState.init
    (by simp only [DiffState.init, hpre]; omega) hwf
  rw [hskip, hpre]
  have hhead := displayDiffStep_hunkHeader nc k newLine oldLine a b c d heading
    { DiffState.init with diffChunkNum := DiffState.init.diffChunkNum + (k : Nat), maxChars := mc }
  rcases hhead with ⟨_, hstep⟩ | ⟨hgt, _⟩
  · have hnh : isHunkHeader ctx = false := by simp [isHunkHeader, hctx]
    have hstep2 := displayDiffStep_content nc k newLine oldLine ctx
      { DiffState.init with diffChunkNum := DiffState.init.diffChunkNum + (k : Nat) + 1,
                            maxChars := maxPadding (Nat.repr b) (Nat.repr d) + 1 } hnh
    rw [displayDiffLine_selected nc k newLine oldLine ctx _
      (by simp only [DiffState.init]; omega) ' ' cs hctx] at hstep2
    simp only [displayDiffLoop, hstep, hstep2]
    obtain ⟨X, hX⟩ := displayDiffLoop_extends nc k newLine oldLine rest
      { DiffState.init with
        diffChunkNum := DiffState.init.diffChunkNum + (k : Nat) + 1
        maxChars := maxPadding (Nat.repr b) (Nat.repr d) + 1
        oldLineNum := (tagLine ' ' DiffState.init.oldLineNum DiffState.init.newLineNum).oldLineNum
        newLineNum := (tagLine ' ' DiffState.init.oldLineNum DiffState.init.newLineNum).newLineNum
        printed := DiffState.init.printed ++
          (if inWindow newLine oldLine
              (tagLine ' ' DiffState.init.oldLineNum DiffState.init.newLineNum).newLineNum
              (tagLine ' ' DiffState.init.oldLineNum DiffState.init.newLineNum).oldLineNum then
            printDiffLine
              (if nc then "" else
                (tagLine ' ' DiffState.init.oldLineNum DiffState.init.newLineNum).strColor)
              (maxPadding (Nat.repr b) (Nat.repr d) + 1)
              (tagLine ' ' DiffState.init.oldLineNum DiffState.init.newLineNum).sOld
              (tagLine ' ' DiffState.init.oldLineNum DiffState.init.newLineNum).sNew ctx
          else []) }
    rw [hX]
    have h1 : itoa 1 = "1" := by decide
    simp [DiffState.init, tagLine, hwin, printDiffLine, h1, maxPadding_counts b d hb hd]
  · simp only [DiffState.init] at hgt
    omega

/-- C3 (amended) at a hunk that starts at old line 10 and new line 20. -/
theorem displayDiff_first_context_line_witness :
    scanLines "@@ -10,3 +20,4 @@\n a" = [] ++ hunkHeader 10 3 20 4 "" :: " a" :: [] ∧
    (([] : List String).filter isHunkHeader).length = 0 ∧
    (∀ l ∈ ([] : List String), isHunkHeader l = true → wellFormedLine l = true) ∧
    " a".data = ' ' :: ['a'] ∧ inWindow 1 0 1 1 = true ∧ 3 < 2 ^ 63 ∧ 4 < 2 ^ 63 ∧
    (displayDiff false "@@ -10,3 +20,4 @@\n a" 0 1 0).printed.head?
      = some ⟨.plain, max (digits 3) (digits 4) + 1, "1", "1", " a"⟩ :=
  ⟨by decide, by decide, by simp, by decide, by decide, by decide, by decide,
    displayDiff_first_context_line false "@@ -10,3 +20,4 @@\n a" 0 1 0 10 3 20 4 "" [] [] " a"
      ['a'] (by decide) (by decide) (by simp) (by decide) (by decide) (by decide) (by decide)⟩

/-- C4: for line-number strings that are the decimal numerals of two numbers
in the `int` range, `maxPadding` returns the length of the numeral of the larger
number; when the numbers are equal the numerals have the same length, and that
length is returned. -/
theorem maxPadding_width_of_larger (a b : Nat) (ha : a < 2 ^ 63) (hb : b < 2 ^ 63) :
    maxPadding (Nat.repr a) (Nat.repr b) = len (Nat.repr (max a b)) ∧
    (a = b → len (Nat.repr a) = len (Nat.repr b) ∧
      maxPadding (Nat.repr a) (Nat.repr b) = len (Nat.repr a)) := by
  have hmain : maxPadding (Nat.repr a) (Nat.repr b) = len (Nat.repr (max a b)) := by
    rw [maxPadding_repr a b ha hb, len_repr]
    by_cases h : a > b
    · rw [if_pos h, max_eq_left (by omega)]
    · rw [if_neg h, max_eq_right (by omega)]
  refine ⟨hmain, ?_⟩
  intro hab
  subst hab
  exact ⟨rfl, by rw [hmain, max_self]⟩

/-- C4 at the line numbers 1277 and 98. -/
theorem maxPadding_width_of_larger_witness :
    1277 < 2 ^ 63 ∧ 98 < 2 ^ 63 ∧
    (maxPadding (Nat.repr 1277) (Nat.repr 98) = len (Nat.repr (max 1277 98)) ∧
      (1277 = 98 → len (Nat.repr 1277) = len (Nat.repr 98) ∧
        maxPadding (Nat.repr 1277) (Nat.repr 98) = len (Nat.repr 1277))) :=
  ⟨by decide, by decide, maxPadding_width_of_larger 1277 98 (by decide) (by decide)⟩

/-- C10 as stated fails: for `@@ -1272,6 +1272,8 @@` the width computed is 2,
not one more than the digits of the last line numbers 1277 and 1279; and for
`@@ -1 +1 @@` it is 3, not 2. -/
theorem maxChars_not_from_last_line :
    (displayDiffStep false 0 0 0 (hunkHeader 1272 6 1272 8 "") DiffState.init).state.maxChars
        ≠ specMaxChars 1272 6 1272 8 ∧
    (displayDiffStep false 0 0 0 "@@ -1 +1 @@" DiffState.init).state.maxChars
        ≠ max (digits 1) (digits 1) + 1 := by
  decide

/-- C10 (amended): for every hunk header `@@ -a,b +c,d @@` with both counts
present and in the `int` range, the column width `displayDiff` computes is
`max(digits(b), digits(d)) + 1`, the width of the two line counts; it is the
width of the last line numbers when the hunk starts at line 1 on both sides. -/
theorem maxChars_from_counts (nc : Bool) (k newLine oldLine : Int) (a b c d : Nat)
    (heading : String) (st : DiffState) (hb : b < 2 ^ 63) (hd : d < 2 ^ 63) :
    (displayDiffStep nc k newLine oldLine (hunkHeader a b c d heading) st).state.maxChars
      = max (digits b) (digits d) + 1 ∧
    (a = 1 → c = 1 →
      (displayDiffStep nc k newLine oldLine (hunkHeader a b c d heading) st).state.maxChars
        = specMaxChars a b c d) := by
  have hmain : (displayDiffStep nc k newLine oldLine (hunkHeader a b c d heading) st).state.maxChars
      = max (digits b) (digits d) + 1 := by
    rcases displayDiffStep_hunkHeader nc k newLine oldLine a b c d heading st with
      ⟨_, hstep⟩ | ⟨_, hstep⟩ <;>
      simp [hstep, Flow.state, maxPadding_counts b d hb hd]
  refine ⟨hmain, ?_⟩
  intro ha hc
  subst ha; subst hc
  rw [hmain]
  simp [specMaxChars]

/-- C10 (amended) at the header `@@ -1,6 +1,18 @@`. -/
theorem maxChars_from_counts_witness :
    6 < 2 ^ 63 ∧ 18 < 2 ^ 63 ∧
    ((displayDiffStep false 0 1 0 (hunkHeader 1 6 1 18 "") DiffState.init).state.maxChars
        = max (digits 6) (digits 18) + 1 ∧
      (1 = 1 → 1 = 1 →
        (displayDiffStep false 0 1 0 (hunkHeader 1 6 1 18 "") DiffState.init).state.maxChars
          = specMaxChars 1 6 1 18)) :=
  ⟨by decide, by decide,
    maxChars_from_counts false 0 1 0 1 6 1 18 "" DiffState.init (by decide) (by decide)⟩

/-! ## The reply loop -/

theorem replyNoteOn_other (w : World) (rn : String) (isMR : Bool) (idNum reply : Int)
    (quote update : Bool) (filename : String) (linebreak resolve : Bool) (msgs : List String)
    (discussion : Discussion) (note : Note) (st : ReplyState) (h : note.ID ≠ reply) :
    replyNoteOn w rn isMR idNum reply quote update filename linebreak resolve msgs
      discussion note st = st := by
  unfold replyNoteOn
  by_cases he : st.exited = true
  · simp [he]
  · by_cases hs : note.System = true <;> simp [he, hs, h]

theorem replyNoteOn_system (w : World) (rn : String) (isMR : Bool) (idNum reply : Int)
    (quote update : Bool) (filename : String) (linebreak resolve : Bool) (msgs : List String)
    (discussion : Discussion) (note : Note) (st : ReplyState)
    (hs : note.System = true) (hid : note.ID = reply) (he : st.exited = false) :
    replyNoteOn w rn isMR idNum reply quote update filename linebreak resolve msgs
      discussion note st =
      { st with trace := st.trace ++
          [.println ("ERROR: Cannot reply to note " ++ itoa note.ID)] } := by
  unfold replyNoteOn
  simp [he, hs, hid]

theorem replyNotes_skip (w : World) (rn : String) (isMR : Bool) (idNum reply : Int)
    (quote update : Bool) (filename : String) (linebreak resolve : Bool) (msgs : List String)
    (discussion : Discussion) :
    ∀ (notes : List Note) (st : ReplyState), (∀ n ∈ notes, n.ID ≠ reply) →
      replyNotes w rn isMR idNum reply quote update filename linebreak resolve msgs
        discussion notes st = st := by
  intro notes
  induction notes with
  | nil => intro st _; rfl
  | cons n ns ih =>
    intro st h
    simp only [replyNotes, List.foldl_cons]
    rw [replyNoteOn_other _ _ _ _ _ _ _ _ _ _ _ _ _ _ (h n (List.mem_cons_self _ _))]
    exact ih st (fun m hm => h m (List.mem_cons_of_mem _ hm))

theorem replyDiscussions_skip (w : World) (rn : String) (isMR : Bool) (idNum reply : Int)
    (quote update : Bool) (filename : String) (linebreak resolve : Bool) (msgs : List String) :
    ∀ (ds : List Discussion) (st : ReplyState), (∀ d ∈ ds, ∀ n ∈ d.Notes, n.ID ≠ reply) →
      replyDiscussions w rn isMR idNum reply quote update filename linebreak resolve msgs
        ds st = st := by
  intro ds
  induction ds with
  | nil => intro st _; rfl
  | cons d ds ih =>
    intro st h
    simp only [replyDiscussions, List.foldl_cons]
    rw [replyNotes_skip _ _ _ _ _ _ _ _ _ _ _ _ _ _ (h d (List.mem_cons_self _ _))]
    exact ih st (fun d' hd' => h d' (List.mem_cons_of_mem _ hd'))

/-- When exactly one note carries the target ID, the two loops of `replyNote`
do what the loop body does on that note. -/
theorem replyDiscussions_locate (w : World) (rn : String) (isMR : Bool) (idNum reply : Int)
    (quote update : Bool) (filename : String) (linebreak resolve : Bool) (msgs : List String)
    (before after : List Discussion) (d : Discussion) (earlier later : List Note) (note : Note)
    (st : ReplyState)
    (hd : d.Notes = earlier ++ note :: later)
    (hothers : ∀ d' ∈ before ++ after, ∀ n ∈ d'.Notes, n.ID ≠ reply)
    (hnotes : ∀ n ∈ earlier ++ later, n.ID ≠ reply) :
    replyDiscussions w rn isMR idNum reply quote update filename linebreak resolve msgs
      (before ++ d :: after) st =
    replyNoteOn w rn isMR idNum reply quote update filename linebreak resolve msgs d note st := by
  have h1 := replyDiscussions_skip w rn isMR idNum reply quote update filename linebreak
    resolve msgs before st (fun d' hd' => hothers d' (List.mem_append_left _ hd'))
  have h2 := fun st' => replyDiscussions_skip w rn isMR idNum reply quote update filename
    linebreak resolve msgs after st' (fun d' hd' => hothers d' (List.mem_append_right _ hd'))
  have h3 := replyNotes_skip w rn isMR idNum reply quote update filename linebreak
    resolve msgs d earlier st (fun n hn => hnotes n (List.mem_append_left _ hn))
  have h4 := fun st' => replyNotes_skip w rn isMR idNum reply quote update filename linebreak
    resolve msgs d later st' (fun n hn => hnotes n (List.mem_append_right _ hn))
  simp only [replyDiscussions, replyNotes, List.foldl_append, List.foldl_cons] at h1 h2 h3 h4 ⊢
  rw [h1, hd]
  simp only [List.foldl_append, List.foldl_cons]
  rw [h3, h4, h2]

/-- When every note with the target ID is a system note, the loops only print
one error per such note. -/
theorem replyNotes_system_only (w : World) (rn : String) (isMR : Bool) (idNum reply : Int)
    (quote update : Bool) (filename : String) (linebreak resolve : Bool) (msgs : List String)
    (discussion : Discussion) :
    ∀ (notes : List Note) (st : ReplyState), st.exited = false →
      (∀ n ∈ notes, n.ID = reply → n.System = true) →
      replyNotes w rn isMR idNum reply quote update filename linebreak resolve msgs
        discussion notes st =
      { st with trace := st.trace ++ ((notes.filter fun n => decide (n.ID = reply)).map
          fun n => .println ("ERROR: Cannot reply to note " ++ itoa n.ID)) } := by
  intro notes
  induction notes with
  | nil => intro st _ _; simp [replyNotes]
  | cons n ns ih =>
    intro st he h
    have hrest : ∀ m ∈ ns, m.ID = reply → m.System = true :=
      fun m hm => h m (List.mem_cons_of_mem _ hm)
    simp only [replyNotes, List.foldl_cons] at ih ⊢
    by_cases hid : n.ID = reply
    · rw [replyNoteOn_system _ _ _ _ _ _ _ _ _ _ _ _ _ _ (h n (List.mem_cons_self _ _) hid) hid he]
      refine (ih _ (by exact he) hrest).trans ?_
      simp [List.filter, hid]
    · rw [replyNoteOn_other _ _ _ _ _ _ _ _ _ _ _ _ _ _ hid]
      refine (ih _ (by exact he) hrest).trans ?_
      simp [List.filter, hid]

theorem replyDiscussions_system_only (w : World) (rn : String) (isMR : Bool)
    (idNum reply : Int) (quote update : Bool) (filename : String) (linebreak resolve : Bool)
    (msgs : List String) :
    ∀ (ds : List Discussion) (st : ReplyState), st.exited = false →
      (∀ n ∈ allNotes ds, n.ID = reply → n.System = true) →
      replyDiscussions w rn isMR idNum reply quote update filename linebreak resolve msgs ds st =
      { st with trace := st.trace ++ (((allNotes ds).filter fun n => decide (n.ID = reply)).map
          fun n => .println ("ERROR: Cannot reply to note " ++ itoa n.ID)) } := by
  intro ds
  induction ds with
  | nil => intro st _ _; simp [replyDiscussions, allNotes]
  | cons d ds ih =>
    intro st he h
    have h1 : ∀ n ∈ d.Notes, n.ID = reply → n.System = true := by
      intro n hn
      exact h n (by simp [allNotes, hn])
    have h2 : ∀ n ∈ allNotes ds, n.ID = reply → n.System = true := by
      intro n hn
      refine h n ?_
      simp only [allNotes, List.flatMap_cons, List.mem_append] at hn ⊢
      exact Or.inr hn
    simp only [replyDiscussions, List.foldl_cons] at ih ⊢
    rw [replyNotes_system_only _ _ _ _ _ _ _ _ _ _ _ _ _ _ he h1]
    refine (ih _ (by exact he) h2).trans ?_
    simp [allNotes, List.append_assoc]

theorem mutationCalls_println (ns : List Note) :
    mutationCalls (ns.map fun n => Event.println ("ERROR: Cannot reply to note " ++ itoa n.ID))
      = [] := by
  induction ns with
  | nil => rfl
  | cons n ns ih =>
    simp only [mutationCalls, List.map_cons, List.filter] at ih ⊢
    simp [Event.isMutation, Event.isNoteCreation, Event.isNoteUpdate, Event.isResolve]

theorem mutationCalls_listEvent (isMR : Bool) (rn : String) (idNum : Int) :
    (listEvent isMR rn idNum).isMutation = false := by
  cases isMR <;> rfl

theorem call_trace (w : World) (tr : List Event) (e : Event) :
    (call w tr e).trace = tr ++ [e] := by
  unfold call
  cases w.respond (tr ++ [e]) <;> rfl

/-- The loop body of `replyNote` on the target note once a body has been
composed: the calls of the submission, then the URL or the fatal error. -/
theorem replyNoteOn_target (w : World) (rn : String) (isMR : Bool) (idNum reply : Int)
    (quote update : Bool) (filename : String) (linebreak resolve : Bool) (msgs : List String)
    (discussion : Discussion) (note : Note) (st : ReplyState) (body : String)
    (tr : List Event)
    (hs : note.System = false) (hid : note.ID = reply) (he : st.exited = false)
    (hc : composeBody w isMR quote update filename msgs note st.trace = (.ok body, tr))
    (hb : ¬ (body = "" ∧ resolve = false)) :
    ∃ last : Event, last.isMutation = false ∧
      (replyNoteOn w rn isMR idNum reply quote update filename linebreak resolve msgs
        discussion note st).trace =
      (submit w rn isMR idNum reply update resolve discussion note
        (if linebreak then w.textToMarkdown body else body) st.NoteURL tr).trace ++ [last] := by
  unfold replyNoteOn
  have hb' : ¬ (body = "" ∧ (!resolve) = true) := by simpa using hb
  simp only [he, hs, hid, hc, hb', Bool.false_eq_true, if_false, ne_eq, not_true_eq_false]
  cases (submit w rn isMR idNum reply update resolve discussion note
      (if linebreak then w.textToMarkdown body else body) st.NoteURL tr).err with
  | none => exact ⟨.println _, rfl, rfl⟩
  | some err => exact ⟨.fatal err, rfl, rfl⟩

theorem composeBody_editor (w : World) (isMR quote update : Bool) (note : Note)
    (tr : List Event) (body : String)
    (h : w.respond (tr ++ [.editFile (if isMR then "MR_NOTE" else "ISSUE_NOTE")
      (replySeed quote update note ++ "\n" ++ w.commentChar
        ++ " Write a message for this note. Commented lines are discarded.")]) = .ok body) :
    composeBody w isMR quote update "" [] note tr =
      (.ok body, tr ++ [.editFile (if isMR then "MR_NOTE" else "ISSUE_NOTE")
        (replySeed quote update note ++ "\n" ++ w.commentChar
          ++ " Write a message for this note. Commented lines are discarded.")]) := by
  simp [composeBody, noteMsg, noteText, h]

theorem mutationCalls_append (a b : List Event) :
    mutationCalls (a ++ b) = mutationCalls a ++ mutationCalls b := by
  simp [mutationCalls]

theorem mutationCalls_cons (e : Event) (tr : List Event) :
    mutationCalls (e :: tr) = if e.isMutation then e :: mutationCalls tr else mutationCalls tr := by
  unfold mutationCalls
  by_cases h : e.isMutation = true <;> simp [List.filter, h]

/-! ## Claims about notes -/

/-- C5: a system note is never taken as the reply target.  Whatever the flags
and message sources, the loop body of `replyNote` on a system note that carries
the target ID only prints the error for that note and makes no call; and when
the target ID is the ID of system notes only (IDs are unique within an entity),
the whole run consists of the listing call and one error per such note, with no
add-note, update-note or resolve call. -/
theorem replyNote_system_note_never_target (w : World) (rn : String) (isMR : Bool)
    (idNum reply : Int) (quote update : Bool) (filename : String) (linebreak resolve : Bool)
    (msgs : List String) (discussions : List Discussion)
    (hlist : w.listDiscussions isMR rn idNum = .ok discussions)
    (hsys : ∀ n ∈ allNotes discussions, n.ID = reply → n.System = true) :
    (∀ (discussion : Discussion) (note : Note) (st : ReplyState),
      note.System = true → note.ID = reply → st.exited = false →
      replyNoteOn w rn isMR idNum reply quote update filename linebreak resolve msgs
        discussion note st =
        { st with trace := st.trace ++
            [.println ("ERROR: Cannot reply to note " ++ itoa reply)] }) ∧
    (replyNote w rn isMR idNum reply quote update filename linebreak resolve msgs).trace =
      listEvent isMR rn idNum ::
        ((allNotes discussions).filter fun n => decide (n.ID = reply)).map
          (fun n => .println ("ERROR: Cannot reply to note " ++ itoa n.ID)) ∧
    mutationCalls
      (replyNote w rn isMR idNum reply quote update filename linebreak resolve msgs).trace = [] ∧
    (replyNote w rn isMR idNum reply quote update filename linebreak resolve msgs).exited
      = false := by
  have hrun := replyDiscussions_system_only w rn isMR idNum reply quote update filename
    linebreak resolve msgs discussions ⟨[listEvent isMR rn idNum], "", false⟩ rfl hsys
  refine ⟨?_, ?_, ?_, ?_⟩
  · intro discussion note st hs hid he
    rw [replyNoteOn_system _ _ _ _ _ _ _ _ _ _ _ _ _ _ hs hid he, hid]
  · simp only [replyNote, hlist, hrun]
    rfl
  · simp only [replyNote, hlist, hrun]
    have := mutationCalls_println ((allNotes discussions).filter fun n => decide (n.ID = reply))
    simp only [mutationCalls] at this ⊢
    rw [List.filter_append, this]
    simp [List.filter, mutationCalls_listEvent]
  · simp only [replyNote, hlist, hrun]

/-- C5 at a reply to system note 7 with a message and the resolve flag. -/
theorem replyNote_system_note_never_target_witness :
    (exampleWorld exampleSystemDiscussions).listDiscussions true "group/project" 3
      = .ok exampleSystemDiscussions ∧
    (∀ n ∈ allNotes exampleSystemDiscussions, n.ID = 7 → n.System = true) ∧
    mutationCalls (replyNote (exampleWorld exampleSystemDiscussions) "group/project" true 3 7
      false false "" false true ["done"]).trace = [] :=
  ⟨rfl, by decide,
    (replyNote_system_note_never_target (exampleWorld exampleSystemDiscussions) "group/project"
      true 3 7 false false "" false true ["done"] exampleSystemDiscussions rfl
      (by decide)).2.2.1⟩

/-- C6 as stated fails for an issue: with `resolve` set and an empty composed
body `replyNote` calls add-note with the empty body and makes no resolve call. -/
theorem replyNote_issue_resolve_adds_note :
    mutationCalls (replyNote (exampleWorld exampleDiscussions) "group/project" false 3 7
      false false "" false true []).trace
      = [.addIssueDiscussionNote "group/project" 3 "d1" ""] ∧
    ((replyNote (exampleWorld exampleDiscussions) "group/project" false 3 7
      false false "" false true []).trace.filter Event.isResolve).length ≠ 1 ∧
    (replyNote (exampleWorld exampleDiscussions) "group/project" false 3 7
      false false "" false true []).trace.filter Event.isNoteCreation ≠ [] := by
  decide

/-- C6 (amended): for a merge request and a non-system target note, `replyNote`
with `resolve` set, `update` and `quote` unset, no messages and no file, where
the editor hands back an empty body (which the line-break conversion, when
requested, leaves empty), makes exactly one mutation call: the resolve call on
the note's discussion; it makes no note-creation call. -/
theorem replyNote_resolve_without_text (w : World) (rn : String) (idNum reply : Int)
    (linebreak : Bool) (before after : List Discussion) (d : Discussion)
    (earlier later : List Note) (note : Note)
    (hlist : w.listDiscussions true rn idNum = .ok (before ++ d :: after))
    (hd : d.Notes = earlier ++ note :: later)
    (hsys : note.System = false) (hid : note.ID = reply)
    (hothers : ∀ d' ∈ before ++ after, ∀ n ∈ d'.Notes, n.ID ≠ reply)
    (hnotes : ∀ n ∈ earlier ++ later, n.ID ≠ reply)
    (hedit : ∀ text, w.respond [listEvent true rn idNum, .editFile "MR_NOTE" text] = .ok "")
    (hbreak : linebreak = true → w.textToMarkdown "" = "") :
    mutationCalls (replyNote w rn true idNum reply false false "" linebreak true []).trace
      = [.resolveMRDiscussion rn idNum d.ID reply] := by
  simp only [replyNote, hlist]
  rw [replyDiscussions_locate w rn true idNum reply false false "" linebreak true []
    before after d earlier later note _ hd hothers hnotes]
  have hbody : (if linebreak = true then w.textToMarkdown "" else "") = "" := by
    cases linebreak
    · rfl
    · simpa using hbreak rfl
  have hc := composeBody_editor w true false false note [listEvent true rn idNum] ""
    (by simpa using hedit _)
  obtain ⟨last, hlast, htrace⟩ := replyNoteOn_target w rn true idNum reply false false ""
    linebreak true [] d note ⟨[listEvent true rn idNum], "", false⟩ "" _ hsys hid rfl hc
    (by simp)
  rw [htrace, hbody]
  simp only [submit, call_trace, ne_eq, not_true_eq_false, if_false, if_true,
    Bool.false_eq_true]
  simp only [mutationCalls_append, mutationCalls_cons, hlast, mutationCalls_listEvent]
  rfl

/-- C6 (amended) at a merge request whose note 7 is resolved without text. -/
theorem replyNote_resolve_without_text_witness :
    mutationCalls (replyNote (exampleWorld exampleDiscussions) "group/project" true 3 7
      false false "" true true []).trace
      = [.resolveMRDiscussion "group/project" 3 "d1" 7] :=
  replyNote_resolve_without_text (exampleWorld exampleDiscussions) "group/project" 3 7 true
    [] [] ⟨"d1", false, [⟨7, "old text", false, "alice", 10, 10, none⟩]⟩ [] []
    ⟨7, "old text", false, "alice", 10, 10, none⟩ rfl rfl rfl rfl (by simp) (by simp)
    (fun _ => rfl) (fun _ => by decide)

theorem replaceNewlines_of_no_newline (s new : String) (h : '\n' ∉ s.data) :
    replaceNewlines s new = s := by
  unfold replaceNewlines
  apply String.ext
  simp only
  generalize s.data = l at h
  induction l with
  | nil => rfl
  | cons c cs ih =>
    have hc : c ≠ '\n' := fun hc => h (by simp [hc])
    have hcs : '\n' ∉ cs := fun hcs => h (List.mem_cons_of_mem _ hcs)
    simp only [List.flatMap_cons, hc, if_false, List.singleton_append, ih hcs]

/-- C7 as stated fails: an update without the quote flag seeds the template
with the empty text, not with the note's body `old text`; and an update with the
quote flag of a body of two lines seeds it with `>` put before the second line. -/
theorem update_seed_differs_from_body :
    (replyNote (exampleEditingWorld exampleDiscussions) "group/project" true 3 7
        false true "" false false []).trace.get? 1
      = some (.editFile "MR_NOTE"
          "\n# Write a message for this note. Commented lines are discarded.") ∧
    (replyNote (exampleEditingWorld exampleTwoLineDiscussions) "group/project" true 3 7
        true true "" false false []).trace.get? 1
      = some (.editFile "MR_NOTE"
          "line one\n>line two\n# Write a message for this note. Commented lines are discarded.") := by
  decide

/-- C7 (amended): for a non-system target note whose body has no line break,
`replyNote` with `update` and `quote` set and no message or file source seeds
the edit template with the note's existing body, unchanged, and, when the editor
hands back a non-empty text (or `resolve` is set), submits that text (after the
line-break conversion, when requested) through the update-discussion-note call
for that note in its discussion, as its only mutation call. -/
theorem replyNote_update_seed (w : World) (rn : String) (isMR : Bool) (idNum reply : Int)
    (linebreak resolve : Bool) (before after : List Discussion) (d : Discussion)
    (earlier later : List Note) (note : Note) (composed : String)
    (hlist : w.listDiscussions isMR rn idNum = .ok (before ++ d :: after))
    (hd : d.Notes = earlier ++ note :: later)
    (hsys : note.System = false) (hid : note.ID = reply)
    (hothers : ∀ d' ∈ before ++ after, ∀ n ∈ d'.Notes, n.ID ≠ reply)
    (hnotes : ∀ n ∈ earlier ++ later, n.ID ≠ reply)
    (hbody : '\n' ∉ note.Body.data)
    (hedit : w.respond [listEvent isMR rn idNum,
        .editFile (if isMR then "MR_NOTE" else "ISSUE_NOTE")
          (note.Body ++ "\n" ++ w.commentChar
            ++ " Write a message for this note. Commented lines are discarded.")] = .ok composed)
    (hne : composed ≠ "" ∨ resolve = true) :
    ∃ last : Event, last.isMutation = false ∧
      (replyNote w rn isMR idNum reply true true "" linebreak resolve []).trace =
        [listEvent isMR rn idNum,
          .editFile (if isMR then "MR_NOTE" else "ISSUE_NOTE")
            (note.Body ++ "\n" ++ w.commentChar
              ++ " Write a message for this note. Commented lines are discarded."),
          (if isMR then
            Event.updateMRDiscussionNote rn idNum d.ID note.ID
              (if linebreak then w.textToMarkdown composed else composed)
          else
            Event.updateIssueDiscussionNote rn idNum d.ID note.ID
              (if linebreak then w.textToMarkdown composed else composed)),
          last] := by
  simp only [replyNote, hlist]
  rw [replyDiscussions_locate w rn isMR idNum reply true true "" linebreak resolve []
    before after d earlier later note _ hd hothers hnotes]
  have hseed : replySeed true true note = note.Body := by
    simp [replySeed, replaceNewlines_of_no_newline note.Body "\n>" hbody]
  have hc := composeBody_editor w isMR true true note [listEvent isMR rn idNum] composed
    (by rw [hseed]; simpa using hedit)
  obtain ⟨last, hlast, htrace⟩ := replyNoteOn_target w rn isMR idNum reply true true ""
    linebreak resolve [] d note ⟨[listEvent isMR rn idNum], "", false⟩ composed _ hsys hid rfl hc
    (by
      rintro ⟨h1, h2⟩
      rcases hne with h | h
      · exact h h1
      · rw [h] at h2; cases h2)
  refine ⟨last, hlast, ?_⟩
  rw [htrace, hseed]
  cases isMR <;> simp [submit, call_trace]

/-- C7 (amended) at an update of note 7 of a merge request. -/
theorem replyNote_update_seed_witness :
    ∃ last : Event, last.isMutation = false ∧
      (replyNote (exampleEditingWorld exampleDiscussions) "group/project" true 3 7
        true true "" false false []).trace =
        [listEvent true "group/project" 3,
          .editFile "MR_NOTE"
            ("old text" ++ "\n" ++ "#"
              ++ " Write a message for this note. Commented lines are discarded."),
          Event.updateMRDiscussionNote "group/project" 3 "d1" 7 "edited",
          last] :=
  replyNote_update_seed (exampleEditingWorld exampleDiscussions) "group/project" true 3 7
    false false [] [] ⟨"d1", false, [⟨7, "old text", false, "alice", 10, 10, none⟩]⟩ [] []
    ⟨7, "old text", false, "alice", 10, 10, none⟩ "edited" rfl rfl rfl rfl (by simp) (by simp)
    (by decide) rfl (Or.inl (by decide))

theorem join_cons (m : String) (ms : List String) (sep : String) :
    join (m :: ms) sep = ms.foldl (fun b s => b ++ sep ++ s) m := by
  cases ms <;> rfl

theorem join_fold (sep : String) : ∀ (ms : List String) (p m : String),
    ms.foldl (fun b s => b ++ sep ++ s) (p ++ m) = p ++ ms.foldl (fun b s => b ++ sep ++ s) m := by
  intro ms
  induction ms with
  | nil => intro p m; rfl
  | cons x xs ih =>
    intro p m
    simp only [List.foldl_cons]
    rw [← ih p (m ++ sep ++ x)]
    simp only [String.append_assoc]

theorem join_blank_line (m : String) (ms : List String) :
    join (m :: ms) "\n\n" = blankLineSeparated (m :: ms) := by
  induction ms generalizing m with
  | nil => rfl
  | cons x xs ih =>
    rw [join_cons, List.foldl_cons, join_fold "\n\n" xs (m ++ "\n\n") x, ← join_cons, ih x]
    rfl

/-- C8: for every non-empty list of messages, every `isMR` and every seed body,
`noteMsg` returns without error the messages, each verbatim, separated by
exactly one blank line, independent of the body, and makes no call (neither
`noteText` nor the editor is reached); `replyNote` composes its body this way
whenever messages are given. -/
theorem noteMsg_joins_messages (w : World) (m : String) (ms : List String) (isMR : Bool)
    (body : String) (tr : List Event) (quote update : Bool) (filename : String) (note : Note) :
    noteMsg w (m :: ms) isMR body tr = (.ok (blankLineSeparated (m :: ms)), tr) ∧
    composeBody w isMR quote update filename (m :: ms) note tr
      = (.ok (blankLineSeparated (m :: ms)), tr) := by
  have h : noteMsg w (m :: ms) isMR body tr = (.ok (blankLineSeparated (m :: ms)), tr) := by
    simp [noteMsg, join_blank_line]
  have h' : noteMsg w (m :: ms) isMR note.Body tr = (.ok (blankLineSeparated (m :: ms)), tr) := by
    simp [noteMsg, join_blank_line]
  exact ⟨h, by simp [composeBody, h']⟩

/-! ## Printing discussions -/

/-- On well-formed lines the scan loop ends without a panic. -/
theorem loop_no_panic (nc : Bool) (k newLine oldLine : Int) :
    ∀ (lines : List String) (st : DiffState), (∀ l ∈ lines, wellFormedLine l = true) →
      (displayDiffLoop nc k newLine oldLine lines st).panicked = false := by
  intro lines
  induction lines with
  | nil => intro st _; rfl
  | cons text rest ih =>
    intro st hwf
    have hwf1 := hwf text (List.mem_cons_self _ _)
    have hwf2 : ∀ l ∈ rest, wellFormedLine l = true := fun l hl => hwf l (List.mem_cons_of_mem _ hl)
    by_cases hh : isHunkHeader text = true
    · obtain ⟨mc, hcase⟩ := displayDiffStep_header nc k newLine oldLine text st hh
      rcases hcase with ⟨_, hbad⟩ | ⟨_, hstep⟩ | ⟨_, hstep⟩
      · rw [hwf1] at hbad; cases hbad
      · simp only [displayDiffLoop, hstep]; exact ih _ hwf2
      · simp only [displayDiffLoop, hstep]
    · have hh' : isHunkHeader text = false := by simpa using hh
      have hstep := displayDiffStep_content nc k newLine oldLine text st hh'
      by_cases hsel : st.diffChunkNum = k
      · obtain ⟨c, cs, he⟩ := wellFormedLine_data text hwf1
        rw [displayDiffLine_selected nc k newLine oldLine text st hsel c cs he] at hstep
        simp only [displayDiffLoop, hstep]; exact ih _ hwf2
      · rw [displayDiffLine_other nc k newLine oldLine text st hsel] at hstep
        simp only [displayDiffLoop, hstep]; exact ih _ hwf2

theorem displayDiff_no_panic (nc : Bool) (diff : String) (k newLine oldLine : Int)
    (hclean : scansCleanly diff = true) :
    (displayDiff nc diff k newLine oldLine).panicked = false := by
  unfold scansCleanly at hclean
  rw [Bool.and_eq_true] at hclean
  unfold displayDiff
  rw [scanLines_eq_textLines diff hclean.1]
  exact loop_no_panic nc k newLine oldLine (textLines diff) DiffState.init
    (fun l hl => List.all_eq_true.mp hclean.2 l hl)

theorem viewStateWrites_append (a b : List ShowEvent) :
    viewStateWrites (a ++ b) = viewStateWrites a ++ viewStateWrites b := by
  simp [viewStateWrites]

theorem viewStateWrites_diffLines (ls : List PrintedLine) :
    viewStateWrites (ls.map ShowEvent.diffLine) = [] := by
  induction ls with
  | nil => rfl
  | cons l ls ih =>
    simp only [viewStateWrites, List.map_cons, List.filter] at ih ⊢
    exact ih

theorem displayCommitDiscussion_writes (w : ShowWorld) (idNum : Int) (pos : NotePosition) :
    viewStateWrites (displayCommitDiscussion w idNum pos).trace = [] := by
  unfold displayCommitDiscussion
  cases w.getUnifiedDiff pos.BaseSHA pos.HeadSHA pos.OldPath pos.NewPath with
  | error e => rfl
  | ok diff =>
    by_cases hd : diff = ""
    · simp only [hd, if_true]; rfl
    · simp only [hd, if_false]
      by_cases hp : (displayDiff w.mrShowNoColorDiff diff 0 pos.NewLine pos.OldLine).panicked = true
      · simp only [hp, if_true, viewStateWrites_append, viewStateWrites_diffLines]
        by_cases hsame : pos.NewPath = pos.OldPath <;> simp [hsame, viewStateWrites, List.filter]
      · simp only [hp, if_false, viewStateWrites_append, viewStateWrites_diffLines]
        by_cases hsame : pos.NewPath = pos.OldPath <;> simp [hsame, viewStateWrites, List.filter]

theorem displayCommitDiscussion_no_panic (w : ShowWorld) (idNum : Int) (pos : NotePosition)
    (h : diffScansCleanlyAt w pos = true) :
    (displayCommitDiscussion w idNum pos).panicked = false := by
  unfold diffScansCleanlyAt at h
  unfold displayCommitDiscussion
  cases hg : w.getUnifiedDiff pos.BaseSHA pos.HeadSHA pos.OldPath pos.NewPath with
  | error e => rfl
  | ok diff =>
    rw [hg] at h
    by_cases hd : diff = ""
    · simp only [hd, if_true]
    · have hv : scansCleanly diff = true := by simpa [hd] using h
      simp only [hd, if_false,
        displayDiff_no_panic w.mrShowNoColorDiff diff 0 pos.NewLine pos.OldLine hv,
        Bool.false_eq_true]

theorem printNote_writes (w : ShowWorld) (comparetime idNum : Int) (renderMarkdown : Bool)
    (discussion : Discussion) (i : Nat) (note : Note) :
    viewStateWrites (printNote w comparetime idNum renderMarkdown discussion i note).trace
      = [] := by
  unfold printNote
  by_cases hs : note.System = true
  · simp only [hs, if_true]
    split <;> rfl
  · simp only [hs, Bool.false_eq_true, if_false]
    cases hpos : note.Position with
    | none => simp [viewStateWrites, List.filter]
    | some pos =>
      cases i with
      | succ j => simp [viewStateWrites, List.filter]
      | zero =>
        have := displayCommitDiscussion_writes w idNum pos
        simp only
        split
        · rw [viewStateWrites_append, this]
          simp [viewStateWrites, List.filter]
        · rw [viewStateWrites_append, viewStateWrites_append, this]
          simp [viewStateWrites, List.filter]

theorem printNote_no_panic (w : ShowWorld) (comparetime idNum : Int) (renderMarkdown : Bool)
    (discussion : Discussion) (i : Nat) (note : Note)
    (h : ∀ pos, note.Position = some pos → diffScansCleanlyAt w pos = true) :
    (printNote w comparetime idNum renderMarkdown discussion i note).panicked = false := by
  unfold printNote
  by_cases hs : note.System = true
  · simp only [hs, if_true]
    split <;> rfl
  · simp only [hs, Bool.false_eq_true, if_false]
    cases hpos : note.Position with
    | none => rfl
    | some pos =>
      cases i with
      | succ j => rfl
      | zero =>
        have := displayCommitDiscussion_no_panic w idNum pos (h pos hpos)
        simp [this]

theorem printNotes_ok (w : ShowWorld) (comparetime idNum : Int) (renderMarkdown : Bool)
    (discussion : Discussion) :
    ∀ (notes : List Note) (i : Nat),
      viewStateWrites (printNotes w comparetime idNum renderMarkdown discussion i notes).trace = [] ∧
      ((∀ n ∈ notes, ∀ pos, n.Position = some pos → diffScansCleanlyAt w pos = true) →
        (printNotes w comparetime idNum renderMarkdown discussion i notes).panicked = false) := by
  intro notes
  induction notes with
  | nil => intro i; exact ⟨rfl, fun _ => rfl⟩
  | cons n ns ih =>
    intro i
    have hw := printNote_writes w comparetime idNum renderMarkdown discussion i n
    obtain ⟨ih1, ih2⟩ := ih (i + 1)
    unfold printNotes
    by_cases hp : (printNote w comparetime idNum renderMarkdown discussion i n).panicked = true
    · simp only [hp, if_true]
      refine ⟨hw, fun h => ?_⟩
      have := printNote_no_panic w comparetime idNum renderMarkdown discussion i n
        (h n (List.mem_cons_self _ _))
      rw [this] at hp; cases hp
    · have hp' : (printNote w comparetime idNum renderMarkdown discussion i n).panicked = false := by
        simpa using hp
      simp only [hp', Bool.false_eq_true, if_false, viewStateWrites_append, hw, ih1,
        List.append_nil]
      exact ⟨trivial, fun h => ih2 (fun m hm => h m (List.mem_cons_of_mem _ hm))⟩

theorem printAll_ok (w : ShowWorld) (comparetime idNum : Int) (renderMarkdown : Bool) :
    ∀ (discussions : List Discussion),
      viewStateWrites (printAll w comparetime idNum renderMarkdown discussions).trace = [] ∧
      (diffsScanCleanly w discussions = true →
        (printAll w comparetime idNum renderMarkdown discussions).panicked = false) := by
  intro discussions
  induction discussions with
  | nil => exact ⟨rfl, fun _ => rfl⟩
  | cons d ds ih =>
    obtain ⟨h1, h2⟩ := printNotes_ok w comparetime idNum renderMarkdown d d.Notes 0
    obtain ⟨ih1, ih2⟩ := ih
    have hsplit : diffsScanCleanly w (d :: ds) = true →
        (∀ n ∈ d.Notes, ∀ pos, n.Position = some pos → diffScansCleanlyAt w pos = true) ∧
        diffsScanCleanly w ds = true := by
      intro h
      simp only [diffsScanCleanly, positions, allNotes, List.flatMap_cons, List.filterMap_append,
        List.all_append, Bool.and_eq_true, List.all_eq_true] at h ⊢
      refine ⟨fun n hn pos hpos => h.1 pos ?_, h.2⟩
      rw [List.mem_filterMap]
      exact ⟨n, hn, hpos⟩
    unfold printAll
    by_cases hp : (printNotes w comparetime idNum renderMarkdown d 0 d.Notes).panicked = true
    · simp only [hp, if_true]
      refine ⟨h1, fun h => ?_⟩
      rw [h2 (hsplit h).1] at hp; cases hp
    · have hp' : (printNotes w comparetime idNum renderMarkdown d 0 d.Notes).panicked = false := by
        simpa using hp
      simp only [hp', Bool.false_eq_true, if_false, viewStateWrites_append, h1, ih1,
        List.append_nil]
      exact ⟨trivial, fun h => ih2 (hsplit h).2⟩

/-- `printDiscussions` performs no view-state write when `since` parses to a
time other than the zero time; otherwise, when `displayDiff` gets through every
diff git hands back, it runs to completion and performs exactly one view-state
write, for the key made of the command prefix, the entity kind and the numeric
ID, with the time read at the start of the call. -/
theorem printDiscussions_write_of_clean_diffs (w : ShowWorld) (discussions : List Discussion)
    (since idstr : String) (idNum : Int) (renderMarkdown : Bool) :
    (∀ t, w.parseLocal since = .ok t → t ≠ 0 →
      viewStateWrites (printDiscussions w discussions since idstr idNum renderMarkdown).trace
        = []) ∧
    ((∀ t, w.parseLocal since = .ok t → t = 0) → diffsScanCleanly w discussions = true →
      (printDiscussions w discussions since idstr idNum renderMarkdown).panicked = false ∧
      viewStateWrites (printDiscussions w discussions since idstr idNum renderMarkdown).trace
        = [.writeConfigEntry (w.CommandPrefix ++ (idstr ++ itoa idNum)) w.nowAtEntry]) := by
  constructor
  · intro t ht h0
    have hs : resolveSince w since (w.CommandPrefix ++ (idstr ++ itoa idNum)) = ⟨t, true, []⟩ := by
      simp [resolveSince, ht, h0]
    obtain ⟨h1, _⟩ := printAll_ok w t idNum renderMarkdown discussions
    unfold printDiscussions
    simp only [hs]
    split
    · simpa using h1
    · simpa using h1
  · intro hz hclean
    have hs : resolveSince w since (w.CommandPrefix ++ (idstr ++ itoa idNum))
        = storedSince w (w.CommandPrefix ++ (idstr ++ itoa idNum)) := by
      unfold resolveSince
      cases hp : w.parseLocal since with
      | error e => rfl
      | ok t => simp [hz t hp]
    obtain ⟨h1, h2⟩ := printAll_ok w
      (storedSince w (w.CommandPrefix ++ (idstr ++ itoa idNum))).comparetime idNum renderMarkdown
      discussions
    have hp := h2 hclean
    unfold printDiscussions
    have hset : (storedSince w (w.CommandPrefix ++ (idstr ++ itoa idNum))).sinceIsSet = false := rfl
    have htr : (storedSince w (w.CommandPrefix ++ (idstr ++ itoa idNum))).trace
        = [.getTime (w.CommandPrefix ++ (idstr ++ itoa idNum))] := rfl
    simp only [hs, hp, hset, htr, Bool.false_eq_true, if_false, if_true, viewStateWrites_append, h1]
    exact ⟨trivial, rfl⟩

/-- An issue shown with the time `2021-03-04` and shown without a time. -/
theorem printDiscussions_write_of_clean_diffs_example :
    viewStateWrites
      (printDiscussions exampleShowWorld exampleDiffDiscussions "2021-03-04" "issue" 3 true).trace
        = [] ∧
    ((printDiscussions exampleShowWorld exampleDiffDiscussions "" "issue" 3 true).panicked
        = false ∧
      viewStateWrites
        (printDiscussions exampleShowWorld exampleDiffDiscussions "" "issue" 3 true).trace
          = [.writeConfigEntry (exampleShowWorld.CommandPrefix ++ ("issue" ++ itoa 3))
              exampleShowWorld.nowAtEntry]) :=
  ⟨(printDiscussions_write_of_clean_diffs exampleShowWorld exampleDiffDiscussions "2021-03-04"
      "issue" 3 true).1 50 (by simp [exampleShowWorld]) (by decide),
    (printDiscussions_write_of_clean_diffs exampleShowWorld exampleDiffDiscussions ""
      "issue" 3 true).2 (fun t h => by simp [exampleShowWorld] at h) (by decide)⟩

/-- C9 (code defect): for a merge request whose first note is anchored at new
line 3 of a file, shown without a `since` value, where git prints the file's
diff with an empty context line (`diff.suppressBlankEmpty`), `printDiscussions`
ends in the index panic of `displayDiff` (show_common.go:84) while printing the
note and never reaches the view-state write of show_common.go:270-272: it
performs no write, where the claim has exactly one. -/
theorem printDiscussions_no_write_after_panic :
    (resolveSince blankLineWorld "" "lab_mr3").sinceIsSet = false ∧
    (printDiscussions blankLineWorld exampleDiffDiscussions "" "mr" 3 true).panicked = true ∧
    viewStateWrites
      (printDiscussions blankLineWorld exampleDiffDiscussions "" "mr" 3 true).trace = [] := by
  decide

end Lab
